import Mathlib

/-!
# Damgård–Fujisaki commitment opening proof

A shallow embedding of `crypto/zkp/primitives/commitments/damgard-fujisaki_opening.go`:
the prover and the verifier of the three-move proof of knowledge of an opening of a
Damgård–Fujisaki commitment.

* `*big.Int` values are `Int`; a `*big.Int` field that a constructor leaves unset is
  `Option Int` with `none` for the nil pointer, and an operation that dereferences a nil
  pointer has no result (`none`).
* Go `int` values are `Int`; the sums and products the source computes on `int` wrap at
  64 bits (`wrapInt`).
* The randomness source is an explicit value threaded through the calls.
* `GetProofData` and `Verify` are embedded a second time over a store of `big.Int` cells
  (namespace `Mem`), to say which cells a call writes.
* The group arithmetic, the commitment handles and the sampler live in other packages of the
  repository; they are modelled from the specification and marked so.
-/

namespace DFOpening

/-! ## Integers of the host language -/

/-- Two's complement wrap of an `int` result on a 64-bit platform. -/
def wrapInt (x : Int) : Int := (x + 2 ^ 63) % 2 ^ 64 - 2 ^ 63

/-- The helper of `BitLen`: halve until zero, counting the steps. -/
def bitLenAux : Nat → Nat → Nat
  | 0, _ => 0
  | fuel + 1, n => if n = 0 then 0 else 1 + bitLenAux fuel (n / 2)

/-- The method `(*big.Int).BitLen`: the length of the absolute value in bits; `0` for `0`. -/
def BitLen (x : Int) : Int := (bitLenAux x.natAbs x.natAbs : Nat)

/-- The method `(*big.Int).Exp(x, y, nil)`: `x ^ y`, and `1` when `y ≤ 0`. -/
def bigExp (x y : Int) : Int := if y ≤ 0 then 1 else x ^ y.toNat

/-! ## External collaborators -/

/-- Modelled from the spec: the hidden-order group, of which only the modulus `N` is used
(the group structure is declared in the package `groups`, not in this file). -/
structure QRSpecialRSA where
  N : Int

/-- Modelled from the spec: modular multiplication over the group of modulus `N`
(`QRSpecialRSA.Mul` is declared in the package `groups`). -/
def QRSpecialRSA.Mul (group : QRSpecialRSA) (x y : Int) : Int := (x * y) % group.N

/-- Modelled from the spec: the inverse in the group of modulus `N`, the Bézout
coefficient of `x` reduced modulo `N`; it is the inverse whenever `x` is a unit modulo `N`
(`QRSpecialRSA.Inv` is declared in the package `groups`). -/
def QRSpecialRSA.Inv (group : QRSpecialRSA) (x : Int) : Int := Int.gcdA x group.N % group.N

/-- Modelled from the spec: modular exponentiation over the group of modulus `N`;
a negative exponent is the inverse of the power with the absolute value of the exponent
(`QRSpecialRSA.Exp` is declared in the package `groups`). -/
def QRSpecialRSA.Exp (group : QRSpecialRSA) (base exponent : Int) : Int :=
  if 0 ≤ exponent then base ^ exponent.toNat % group.N
  else group.Inv (base ^ exponent.natAbs % group.N)

/-- Modelled from the spec: the committer handle with the commitment parameters
(modulus, generators `G`, `H`, range bound `T`, hiding parameter `B`) and the secret
opening `(committedValue, r)` (declared in the package `commitments`). -/
structure DamgardFujisakiCommitter where
  QRSpecialRSA : QRSpecialRSA
  G : Int
  H : Int
  T : Int
  B : Int
  committedValue : Int
  r : Int

/-- Modelled from the spec: the receiver handle with the public parameters and the
commitment value (declared in the package `commitments`). -/
structure DamgardFujisakiReceiver where
  QRSpecialRSA : QRSpecialRSA
  G : Int
  H : Int
  Commitment : Int

/-- Modelled from the spec: `ComputeCommit(x, y) -> G^x·H^y mod N` for given modulus and
generators (declared in the package `commitments`). -/
def computeCommit (group : QRSpecialRSA) (G H x y : Int) : Int :=
  group.Mul (group.Exp G x) (group.Exp H y)

/-- Modelled from the spec: `ComputeCommit` on the committer handle. -/
def DamgardFujisakiCommitter.ComputeCommit (committer : DamgardFujisakiCommitter)
    (a r : Int) : Int :=
  computeCommit committer.QRSpecialRSA committer.G committer.H a r

/-- Modelled from the spec: `ComputeCommit` on the receiver handle. -/
def DamgardFujisakiReceiver.ComputeCommit (receiver : DamgardFujisakiReceiver)
    (a r : Int) : Int :=
  computeCommit receiver.QRSpecialRSA receiver.G receiver.H a r

/-- Modelled from the spec: `GetDecommitMsg() -> (a, r)`, the secret opening held by the
committer handle (declared in the package `commitments`). -/
def DamgardFujisakiCommitter.GetDecommitMsg (committer : DamgardFujisakiCommitter) :
    Int × Int :=
  (committer.committedValue, committer.r)

/-- Modelled from the spec: the randomness source. `sample i b` is what the source
delivers at its `i`-th draw when asked for the bound `b`; `calls` counts the draws made. -/
structure RandomSource where
  sample : Nat → Int → Int
  calls : Nat

/-- The assumption on the randomness source: every draw with a positive bound `b` lies
in `[0, b)`. -/
def RandomSource.InRange (src : RandomSource) : Prop :=
  ∀ (i : Nat) (b : Int), 0 < b → 0 ≤ src.sample i b ∧ src.sample i b < b

/-- Modelled from the spec: `GetRandomInt(bound) -> integer in [0, bound)` (declared in
the package `common`). The interval is empty for `bound ≤ 0`, where there is no result. -/
def GetRandomInt (src : RandomSource) (max : Int) : Option (Int × RandomSource) :=
  if 0 < max then some (src.sample src.calls max, { src with calls := src.calls + 1 })
  else none

/-! ## Prover -/

/-- The prover of the opening proof; `r1`, `r2` are unset after construction. -/
structure DFCommitmentOpeningProver where
  committer : DamgardFujisakiCommitter
  challengeSpaceSize : Int
  r1 : Option Int
  r2 : Option Int

/-- The constructor of the prover. -/
def NewDFCommitmentOpeningProver (committer : DamgardFujisakiCommitter)
    (challengeSpaceSize : Int) : DFCommitmentOpeningProver :=
  { committer := committer, challengeSpaceSize := challengeSpaceSize,
    r1 := none, r2 := none }

/-- The bound of the first draw of `GetProofRandomData`: `2 ^ (nLen + k)` times `T`. -/
def DFCommitmentOpeningProver.r1Bound (prover : DFCommitmentOpeningProver) : Int :=
  let nLen := BitLen prover.committer.QRSpecialRSA.N
  let exp := wrapInt (nLen + prover.challengeSpaceSize)
  let b := bigExp 2 exp
  b * prover.committer.T

/-- The bound of the second draw of `GetProofRandomData`: `2 ^ (B + 2 * nLen + k)`. -/
def DFCommitmentOpeningProver.r2Bound (prover : DFCommitmentOpeningProver) : Int :=
  let nLen := BitLen prover.committer.QRSpecialRSA.N
  bigExp 2 (wrapInt (wrapInt (prover.committer.B + wrapInt (2 * nLen))
    + prover.challengeSpaceSize))

/-- The first move: draw `r1` and `r2`, store them, return `G^r1 * H^r2`. The result is
the returned value, the prover afterwards and the randomness source afterwards. -/
def DFCommitmentOpeningProver.GetProofRandomData (prover : DFCommitmentOpeningProver)
    (src : RandomSource) : Option (Int × DFCommitmentOpeningProver × RandomSource) :=
  match GetRandomInt src prover.r1Bound with
  | none => none
  | some (r1, src1) =>
    let prover1 := { prover with r1 := some r1 }
    match GetRandomInt src1 prover1.r2Bound with
    | none => none
    | some (r2, src2) =>
      let prover2 := { prover1 with r2 := some r2 }
      let proofRandomData := prover2.committer.ComputeCommit r1 r2
      some (proofRandomData, prover2, src2)

/-- The third move: `s1 = r1 + challenge * a`, `s2 = r2 + challenge * r` over the
integers. There is no result when `r1` or `r2` is unset. -/
def DFCommitmentOpeningProver.GetProofData (prover : DFCommitmentOpeningProver)
    (challenge : Int) : Option (Int × Int) :=
  let (a, r) := prover.committer.GetDecommitMsg
  match prover.r1, prover.r2 with
  | some r1, some r2 =>
    let s1 := challenge * a
    let s1 := s1 + r1
    let s2 := challenge * r
    let s2 := s2 + r2
    some (s1, s2)
  | _, _ => none

/-! ## Verifier -/

/-- The verifier of the opening proof; `challenge` and `proofRandomData` are unset after
construction. -/
structure DFCommitmentOpeningVerifier where
  receiver : DamgardFujisakiReceiver
  challengeSpaceSize : Int
  challenge : Option Int
  proofRandomData : Option Int

/-- The constructor of the verifier. -/
def NewDFCommitmentOpeningVerifier (receiver : DamgardFujisakiReceiver)
    (challengeSpaceSize : Int) : DFCommitmentOpeningVerifier :=
  { receiver := receiver, challengeSpaceSize := challengeSpaceSize,
    challenge := none, proofRandomData := none }

/-- Store the first message of the prover. -/
def DFCommitmentOpeningVerifier.SetProofRandomData (verifier : DFCommitmentOpeningVerifier)
    (proofRandomData : Int) : DFCommitmentOpeningVerifier :=
  { verifier with proofRandomData := some proofRandomData }

/-- The second move: draw the challenge below `2 ^ challengeSpaceSize`, store and return
it. The result is the challenge, the verifier afterwards and the source afterwards. -/
def DFCommitmentOpeningVerifier.GetChallenge (verifier : DFCommitmentOpeningVerifier)
    (src : RandomSource) : Option (Int × DFCommitmentOpeningVerifier × RandomSource) :=
  let exp := verifier.challengeSpaceSize
  let b := bigExp 2 exp
  match GetRandomInt src b with
  | none => none
  | some (challenge, src1) =>
    some (challenge, { verifier with challenge := some challenge }, src1)

/-- The final check `proofRandomData * Commitment^challenge = G^s1 * H^s2 mod N`. There
is no result when the challenge or the proof random data is unset. -/
def DFCommitmentOpeningVerifier.Verify (verifier : DFCommitmentOpeningVerifier)
    (s1 s2 : Int) : Option Bool :=
  match verifier.challenge, verifier.proofRandomData with
  | some challenge, some proofRandomData =>
    let left := verifier.receiver.QRSpecialRSA.Exp verifier.receiver.Commitment challenge
    let left := verifier.receiver.QRSpecialRSA.Mul proofRandomData left
    let right := verifier.receiver.ComputeCommit s1 s2
    some (decide (left = right))
  | _, _ => none


/-! ## Concrete instances

Small parameters on which the operations are evaluated. -/

/-- A committer with modulus `35`, generators `2` and `3`, and the opening `(5, 7)`. -/
def exCommitter : DamgardFujisakiCommitter :=
  { QRSpecialRSA := { N := 35 }, G := 2, H := 3, T := 4, B := 1, committedValue := 5, r := 7 }

/-- The receiver that holds the commitment of `exCommitter`. -/
def exReceiver : DamgardFujisakiReceiver :=
  { QRSpecialRSA := { N := 35 }, G := 2, H := 3, Commitment := exCommitter.ComputeCommit 5 7 }

/-- A randomness source whose `i`-th draw is `6 + 5 * i` reduced below the bound. -/
def exSource : RandomSource := { sample := fun i b => (6 + 5 * (i : Int)) % b, calls := 0 }

/-- A prover over `exCommitter` with challenge-space size `2`. -/
def exProver : DFCommitmentOpeningProver := NewDFCommitmentOpeningProver exCommitter 2

/-- A verifier over `exReceiver` with challenge-space size `2`. -/
def exVerifier : DFCommitmentOpeningVerifier := NewDFCommitmentOpeningVerifier exReceiver 2

/-- A randomness source that always delivers the largest value below the bound. -/
def topSource : RandomSource := { sample := fun _ b => b - 1, calls := 0 }

/-- A prover constructed with the negative challenge-space size `-10`. -/
def negProver : DFCommitmentOpeningProver :=
  NewDFCommitmentOpeningProver
    { QRSpecialRSA := { N := 5 }, G := 2, H := 3, T := 4, B := 0, committedValue := 5, r := 7 }
    (-10)

/-- A prover constructed with the largest 64-bit challenge-space size. -/
def bigProver : DFCommitmentOpeningProver :=
  NewDFCommitmentOpeningProver
    { QRSpecialRSA := { N := 1 }, G := 2, H := 3, T := 4, B := 0, committedValue := 5, r := 7 }
    (2 ^ 63 - 1)

/-- The prover `exProver` after its first move on `exSource`. -/
def exProver1 : DFCommitmentOpeningProver := { exProver with r1 := some 6, r2 := some 11 }

/-- The prover `exProver` with the range bound `T` replaced by `0`. -/
def zeroTProver : DFCommitmentOpeningProver :=
  NewDFCommitmentOpeningProver { exCommitter with T := 0 } 2

/-! ## Memory-level embedding of the calls that only read

`GetProofData` and `Verify` work on `*big.Int` values. To say which cells a call writes, the
two methods are embedded once more over a store of cells: a pointer is nil or an address,
`new(big.Int)` takes the next free address, and every statement of the body is a step on
the store. -/

namespace Mem

/-- The store of `big.Int` cells: the cells at the addresses below `next` are allocated. -/
structure Store where
  cells : Nat → Int
  next : Nat

/-- Read through a `*big.Int`. There is no result for nil and for an address that was never
allocated. -/
def Store.load (st : Store) (p : Option Nat) : Option Int :=
  match p with
  | none => none
  | some a => if a < st.next then some (st.cells a) else none

/-- The expression `new(big.Int)`: the next free address, with the cell there set to `0`. -/
def Store.alloc (st : Store) : Nat × Store :=
  (st.next, { cells := Function.update st.cells st.next 0, next := st.next + 1 })

/-- Overwrite the cell at the address `a`. -/
def Store.set (st : Store) (a : Nat) (v : Int) : Store :=
  { st with cells := Function.update st.cells a v }

/-- The method `z.Mul(x, y)` of `math/big`: reads `x` and `y` and writes the product into the
cell of the receiver `z`. -/
def bigMul (st : Store) (z : Nat) (x y : Option Nat) : Option Store :=
  match st.load (some z), st.load x, st.load y with
  | some _, some vx, some vy => some (st.set z (vx * vy))
  | _, _, _ => none

/-- The method `z.Add(x, y)` of `math/big`: reads `x` and `y` and writes the sum into the
cell of the receiver `z`. -/
def bigAdd (st : Store) (z : Nat) (x y : Option Nat) : Option Store :=
  match st.load (some z), st.load x, st.load y with
  | some _, some vx, some vy => some (st.set z (vx + vy))
  | _, _, _ => none

/-- Modelled from the spec: the committer handle, of which `GetProofData` uses the two
pointers to the secret opening (declared in the package `commitments`). -/
structure DamgardFujisakiCommitter where
  committedValue : Option Nat
  r : Option Nat

/-- Modelled from the spec: `GetDecommitMsg() -> (a, r)`, the two pointers held by the
committer handle. -/
def DamgardFujisakiCommitter.GetDecommitMsg (committer : DamgardFujisakiCommitter) :
    Option Nat × Option Nat :=
  (committer.committedValue, committer.r)

/-- The prover object: `r1` and `r2` are pointers, nil after construction. -/
structure DFCommitmentOpeningProver where
  committer : DamgardFujisakiCommitter
  challengeSpaceSize : Int
  r1 : Option Nat
  r2 : Option Nat

/-- The method `GetProofData`, statement by statement. The result is the pair of pointers
returned, the prover object afterwards and the store afterwards. -/
def DFCommitmentOpeningProver.GetProofData (prover : DFCommitmentOpeningProver)
    (challenge : Option Nat) (st : Store) :
    Option ((Option Nat × Option Nat) × DFCommitmentOpeningProver × Store) :=
  let (a, r) := prover.committer.GetDecommitMsg
  let (s1, st) := st.alloc
  match bigMul st s1 challenge a with
  | none => none
  | some st =>
    match bigAdd st s1 (some s1) prover.r1 with
    | none => none
    | some st =>
      let (s2, st) := st.alloc
      match bigMul st s2 challenge r with
      | none => none
      | some st =>
        match bigAdd st s2 (some s2) prover.r2 with
        | none => none
        | some st => some ((some s1, some s2), prover, st)

/-- Modelled from the spec: the receiver handle; the commitment is a pointer, since `Verify`
hands it to `Exp` (declared in the package `commitments`). -/
structure DamgardFujisakiReceiver where
  QRSpecialRSA : QRSpecialRSA
  G : Int
  H : Int
  Commitment : Option Nat

/-- Modelled from the spec: `QRSpecialRSA.Exp` on pointers reads the base and the exponent
and returns the power in a fresh cell; it writes no other cell. -/
def Exp (group : QRSpecialRSA) (st : Store) (base exponent : Option Nat) :
    Option (Nat × Store) :=
  match st.load base, st.load exponent with
  | some b, some e => some (st.alloc.1, st.alloc.2.set st.alloc.1 (group.Exp b e))
  | _, _ => none

/-- Modelled from the spec: `QRSpecialRSA.Mul` on pointers reads both factors and returns
the product in a fresh cell; it writes no other cell. -/
def Mul (group : QRSpecialRSA) (st : Store) (x y : Option Nat) : Option (Nat × Store) :=
  match st.load x, st.load y with
  | some vx, some vy => some (st.alloc.1, st.alloc.2.set st.alloc.1 (group.Mul vx vy))
  | _, _ => none

/-- Modelled from the spec: `ComputeCommit` on the receiver handle reads both exponents and
returns `G^x * H^y mod N` in a fresh cell; it writes no other cell. -/
def DamgardFujisakiReceiver.ComputeCommit (receiver : DamgardFujisakiReceiver) (st : Store)
    (x y : Option Nat) : Option (Nat × Store) :=
  match st.load x, st.load y with
  | some vx, some vy =>
    some (st.alloc.1,
      st.alloc.2.set st.alloc.1 (computeCommit receiver.QRSpecialRSA receiver.G receiver.H vx vy))
  | _, _ => none

/-- The verifier object: `challenge` and `proofRandomData` are pointers, nil after
construction. -/
structure DFCommitmentOpeningVerifier where
  receiver : DamgardFujisakiReceiver
  challengeSpaceSize : Int
  challenge : Option Nat
  proofRandomData : Option Nat

/-- The method `Verify`, statement by statement. The result is the boolean returned, the
verifier object afterwards and the store afterwards. -/
def DFCommitmentOpeningVerifier.Verify (verifier : DFCommitmentOpeningVerifier)
    (s1 s2 : Option Nat) (st : Store) :
    Option (Bool × DFCommitmentOpeningVerifier × Store) :=
  match Exp verifier.receiver.QRSpecialRSA st verifier.receiver.Commitment
      verifier.challenge with
  | none => none
  | some (left, st) =>
    match Mul verifier.receiver.QRSpecialRSA st verifier.proofRandomData (some left) with
    | none => none
    | some (left, st) =>
      match verifier.receiver.ComputeCommit st s1 s2 with
      | none => none
      | some (right, st) =>
        match st.load (some left), st.load (some right) with
        | some l, some r => some (decide (l = r), verifier, st)
        | _, _ => none

/-- Every cell allocated in `st` is allocated in `st1` and holds the same value there. -/
def Store.Ext (st st1 : Store) : Prop :=
  st.next ≤ st1.next ∧ ∀ a, a < st.next → st1.cells a = st.cells a

/-- A store with ten cells: the opening `5, 7`, then `r1 = 6`, `r2 = 11`, the challenges `2`
and `3`, `t = 33`, the commitment `19` and the response `16, 25`. -/
def memStore : Store :=
  { cells := fun a => [5, 7, 6, 11, 2, 3, 33, 19, 16, 25].getD a 0, next := 10 }

/-- The prover object over `memStore`. -/
def memProver : DFCommitmentOpeningProver :=
  { committer := { committedValue := some 0, r := some 1 }, challengeSpaceSize := 2,
    r1 := some 2, r2 := some 3 }

/-- The verifier object over `memStore`, with modulus `35` and generators `2`, `3`. -/
def memVerifier : DFCommitmentOpeningVerifier :=
  { receiver := { QRSpecialRSA := { N := 35 }, G := 2, H := 3, Commitment := some 7 },
    challengeSpaceSize := 2, challenge := some 4, proofRandomData := some 6 }

end Mem

/-! ## Bit flips -/

/-- Flip bit `i` of the magnitude of `t` and keep the sign (a `*big.Int` is a sign and a
magnitude). -/
def flipBit (t : Int) (i : Nat) : Int :=
  if t < 0 then -((t.natAbs ^^^ 2 ^ i : Nat) : Int) else ((t.natAbs ^^^ 2 ^ i : Nat) : Int)

/-! ## Arithmetic lemmas -/

theorem wrapInt_of_range (x : Int) (h1 : -2 ^ 63 ≤ x) (h2 : x < 2 ^ 63) : wrapInt x = x := by
  unfold wrapInt
  norm_num at h1 h2 ⊢
  omega

theorem wrapInt_modEq (x : Int) : wrapInt x % 2 ^ 64 = x % 2 ^ 64 := by
  unfold wrapInt
  norm_num
  omega

theorem bigExp_eq (x y : Int) : bigExp x y = x ^ y.toNat := by
  unfold bigExp
  split
  · rename_i h
    rw [Int.toNat_eq_zero.mpr h, pow_zero]
  · rfl

theorem bigExp_two_pos (y : Int) : 0 < bigExp 2 y := by
  rw [bigExp_eq]; positivity

theorem cast_modulus (group : QRSpecialRSA) (hN : 0 < group.N) :
    ((group.N : Int) : ZMod group.N.toNat) = 0 := by
  have h : ((group.N.toNat : Int) : ZMod group.N.toNat) = 0 := by
    rw [Int.cast_natCast]; exact ZMod.natCast_self _
  rwa [Int.toNat_of_nonneg hN.le] at h

theorem cast_emod (group : QRSpecialRSA) (hN : 0 < group.N) (x : Int) :
    ((x % group.N : Int) : ZMod group.N.toNat) = (x : ZMod group.N.toNat) := by
  have h := ZMod.intCast_mod x group.N.toNat
  rwa [Int.toNat_of_nonneg hN.le] at h

theorem emod_eq_iff_cast (group : QRSpecialRSA) (hN : 0 < group.N) (x y : Int) :
    x % group.N = y % group.N ↔ (x : ZMod group.N.toNat) = (y : ZMod group.N.toNat) := by
  have h := ZMod.intCast_eq_intCast_iff' x y group.N.toNat
  rw [Int.toNat_of_nonneg hN.le] at h
  exact h.symm

theorem gcd_eq_one_of_cast_isUnit (group : QRSpecialRSA) (hN : 0 < group.N) (x : Int)
    (u : (ZMod group.N.toNat)ˣ) (hx : (x : ZMod group.N.toNat) = u) :
    Int.gcd x group.N = 1 := by
  obtain ⟨z, hz⟩ := ZMod.intCast_surjective ((u⁻¹ : (ZMod group.N.toNat)ˣ) : ZMod group.N.toNat)
  have h1 : ((x * z : Int) : ZMod group.N.toNat) = ((1 : Int) : ZMod group.N.toNat) := by
    rw [Int.cast_mul, hx, hz, Int.cast_one, Units.mul_inv]
  rw [ZMod.intCast_eq_intCast_iff_dvd_sub, Int.toNat_of_nonneg hN.le] at h1
  obtain ⟨w, hw⟩ := h1
  rw [← Int.isCoprime_iff_gcd_eq_one]
  exact ⟨z, w, by linarith⟩

theorem cast_mul_gcdA (group : QRSpecialRSA) (hN : 0 < group.N) (x : Int)
    (h : Int.gcd x group.N = 1) :
    (x : ZMod group.N.toNat) * ((Int.gcdA x group.N : Int) : ZMod group.N.toNat) = 1 := by
  have hb := Int.gcd_eq_gcd_ab x group.N
  rw [h] at hb
  have hc := congrArg (Int.cast : Int → ZMod group.N.toNat) hb
  rw [Int.cast_add, Int.cast_mul, Int.cast_mul, cast_modulus group hN, zero_mul, add_zero] at hc
  rw [← hc]; simp

theorem exists_unit_of_gcd (group : QRSpecialRSA) (hN : 0 < group.N) (x : Int)
    (h : Int.gcd x group.N = 1) :
    ∃ u : (ZMod group.N.toNat)ˣ, (x : ZMod group.N.toNat) = u :=
  ⟨Units.mkOfMulEqOne _ _ (cast_mul_gcdA group hN x h), rfl⟩

theorem Exp_cast (group : QRSpecialRSA) (hN : 0 < group.N) (u : (ZMod group.N.toNat)ˣ)
    (x : Int) (hx : (x : ZMod group.N.toNat) = u) (e : Int) :
    ((group.Exp x e : Int) : ZMod group.N.toNat) = ((u ^ e : (ZMod group.N.toNat)ˣ) : ZMod group.N.toNat) := by
  unfold QRSpecialRSA.Exp
  split
  · rename_i he
    rw [cast_emod group hN, Int.cast_pow, hx]
    conv_rhs => rw [← Int.toNat_of_nonneg he, zpow_natCast]
    rw [Units.val_pow_eq_pow_val]
  · rename_i he
    have hy : (((x ^ e.natAbs % group.N : Int)) : ZMod group.N.toNat)
        = ((u ^ e.natAbs : (ZMod group.N.toNat)ˣ) : ZMod group.N.toNat) := by
      rw [cast_emod group hN, Int.cast_pow, hx, Units.val_pow_eq_pow_val]
    have hg := gcd_eq_one_of_cast_isUnit group hN _ _ hy
    have hm := cast_mul_gcdA group hN _ hg
    unfold QRSpecialRSA.Inv
    rw [cast_emod group hN]
    rw [hy] at hm
    have he2 : e = -(e.natAbs : Int) := by omega
    conv_rhs => rw [he2, zpow_neg, zpow_natCast]
    exact (Units.inv_eq_of_mul_eq_one_right hm).symm

theorem Exp_nonneg_eq (group : QRSpecialRSA) (x e : Int) (he : 0 ≤ e) :
    group.Exp x e = x ^ e.toNat % group.N := by
  unfold QRSpecialRSA.Exp; rw [if_pos he]


theorem Mul_emod_right (group : QRSpecialRSA) (x y : Int) :
    group.Mul x (y % group.N) = (x * y) % group.N := by
  unfold QRSpecialRSA.Mul
  rw [Int.mul_emod, Int.emod_emod, ← Int.mul_emod]

theorem Mul_emod_emod (group : QRSpecialRSA) (x y : Int) :
    group.Mul (x % group.N) (y % group.N) = (x * y) % group.N := by
  unfold QRSpecialRSA.Mul
  rw [← Int.mul_emod]

theorem computeCommit_nonneg (group : QRSpecialRSA) (G H x y : Int) (hx : 0 ≤ x)
    (hy : 0 ≤ y) :
    computeCommit group G H x y = (G ^ x.toNat * H ^ y.toNat) % group.N := by
  unfold computeCommit
  rw [Exp_nonneg_eq group G x hx, Exp_nonneg_eq group H y hy, Mul_emod_emod]

theorem computeCommit_cast (group : QRSpecialRSA) (hN : 0 < group.N)
    (uG uH : (ZMod group.N.toNat)ˣ) (G H : Int)
    (hG : (G : ZMod group.N.toNat) = uG) (hH : (H : ZMod group.N.toNat) = uH) (x y : Int) :
    ((computeCommit group G H x y : Int) : ZMod group.N.toNat)
      = ((uG ^ x * uH ^ y : (ZMod group.N.toNat)ˣ) : ZMod group.N.toNat) := by
  unfold computeCommit QRSpecialRSA.Mul
  rw [cast_emod group hN, Int.cast_mul, Exp_cast group hN uG G hG, Exp_cast group hN uH H hH,
    Units.val_mul]

theorem computeCommit_emod (group : QRSpecialRSA) (G H x y : Int) :
    computeCommit group G H x y % group.N = computeCommit group G H x y := by
  unfold computeCommit QRSpecialRSA.Mul
  rw [Int.emod_emod]

theorem Mul_emod (group : QRSpecialRSA) (x y : Int) :
    group.Mul x y % group.N = group.Mul x y := by
  unfold QRSpecialRSA.Mul
  rw [Int.emod_emod]

/-- The honest response to any challenge passes the check, for unit generators. -/
theorem verify_honest (group : QRSpecialRSA) (G H a r x y c : Int) (k : Int)
    (hN : 0 < group.N) (hG : Int.gcd G group.N = 1) (hH : Int.gcd H group.N = 1) :
    DFCommitmentOpeningVerifier.Verify
      { receiver := { QRSpecialRSA := group, G := G, H := H,
                      Commitment := computeCommit group G H a r },
        challengeSpaceSize := k, challenge := some c,
        proofRandomData := some (computeCommit group G H x y) }
      (c * a + x) (c * r + y) = some true := by
  obtain ⟨uG, huG⟩ := exists_unit_of_gcd group hN G hG
  obtain ⟨uH, huH⟩ := exists_unit_of_gcd group hN H hH
  simp only [DFCommitmentOpeningVerifier.Verify, DamgardFujisakiReceiver.ComputeCommit,
    Option.some.injEq, decide_eq_true_eq]
  have key : group.Mul (computeCommit group G H x y)
        (group.Exp (computeCommit group G H a r) c) % group.N
      = computeCommit group G H (c * a + x) (c * r + y) % group.N := by
    rw [emod_eq_iff_cast group hN, computeCommit_cast group hN uG uH G H huG huH]
    unfold QRSpecialRSA.Mul
    rw [cast_emod group hN, Int.cast_mul, computeCommit_cast group hN uG uH G H huG huH,
      Exp_cast group hN (uG ^ a * uH ^ r) _
        (computeCommit_cast group hN uG uH G H huG huH a r),
      ← Units.val_mul]
    congr 1
    rw [mul_zpow, zpow_add, zpow_add, mul_comm c a, mul_comm c r, zpow_mul, zpow_mul,
      mul_mul_mul_comm, mul_comm (uG ^ x), mul_comm (uH ^ y)]
  rwa [Mul_emod, computeCommit_emod] at key


theorem r1Bound_eq (p : DFCommitmentOpeningProver)
    (hlo : 0 ≤ BitLen p.committer.QRSpecialRSA.N + p.challengeSpaceSize)
    (hhi : BitLen p.committer.QRSpecialRSA.N + p.challengeSpaceSize < 2 ^ 63) :
    p.r1Bound = p.committer.T
      * 2 ^ (BitLen p.committer.QRSpecialRSA.N + p.challengeSpaceSize).toNat := by
  simp only [DFCommitmentOpeningProver.r1Bound]
  rw [wrapInt_of_range _ (by linarith) hhi, bigExp_eq, mul_comm]

theorem r2Bound_eq (p : DFCommitmentOpeningProver)
    (hlo : 0 ≤ p.committer.B + 2 * BitLen p.committer.QRSpecialRSA.N + p.challengeSpaceSize)
    (hhi : p.committer.B + 2 * BitLen p.committer.QRSpecialRSA.N + p.challengeSpaceSize
      < 2 ^ 63) :
    p.r2Bound = 2 ^ (p.committer.B + 2 * BitLen p.committer.QRSpecialRSA.N
      + p.challengeSpaceSize).toNat := by
  simp only [DFCommitmentOpeningProver.r2Bound]
  have h : wrapInt (wrapInt (p.committer.B + wrapInt (2 * BitLen p.committer.QRSpecialRSA.N))
      + p.challengeSpaceSize)
      = p.committer.B + 2 * BitLen p.committer.QRSpecialRSA.N + p.challengeSpaceSize := by
    unfold wrapInt
    norm_num at hlo hhi ⊢
    omega
  rw [h, bigExp_eq]

theorem r2Bound_pos (p : DFCommitmentOpeningProver) : 0 < p.r2Bound := bigExp_two_pos _

theorem r1Bound_pos (p : DFCommitmentOpeningProver) (hT : 0 < p.committer.T) :
    0 < p.r1Bound :=
  Int.mul_pos (bigExp_two_pos _) hT

theorem GetRandomInt_pos (src : RandomSource) (b : Int) (hb : 0 < b) :
    GetRandomInt src b
      = some (src.sample src.calls b, { src with calls := src.calls + 1 }) := by
  unfold GetRandomInt; rw [if_pos hb]

theorem GetProofRandomData_eq (p : DFCommitmentOpeningProver) (src : RandomSource)
    (h1 : 0 < p.r1Bound) :
    p.GetProofRandomData src
      = some (p.committer.ComputeCommit (src.sample src.calls p.r1Bound)
                (src.sample (src.calls + 1) p.r2Bound),
              { p with r1 := some (src.sample src.calls p.r1Bound),
                       r2 := some (src.sample (src.calls + 1) p.r2Bound) },
              { src with calls := src.calls + 1 + 1 }) := by
  unfold DFCommitmentOpeningProver.GetProofRandomData
  rw [GetRandomInt_pos src _ h1]
  simp only
  rw [GetRandomInt_pos _ _ (r2Bound_pos _)]
  rfl

theorem exSource_inRange : exSource.InRange := fun _ _ hb =>
  ⟨Int.emod_nonneg _ hb.ne', Int.emod_lt_of_pos _ hb⟩

theorem topSource_inRange : topSource.InRange := fun _ b hb => by
  show 0 ≤ b - 1 ∧ b - 1 < b
  omega


theorem one_lt_two_pow_toNat (e : Int) (he : 0 < e) : (1 : Int) < 2 ^ e.toNat := by
  have h : e.toNat ≠ 0 := by omega
  exact one_lt_pow₀ (by norm_num) h

theorem Exp_succ_cast (group : QRSpecialRSA) (hN : 0 < group.N)
    (u : (ZMod group.N.toNat)ˣ) (x : Int) (hx : (x : ZMod group.N.toNat) = u) (e : Int) :
    ((group.Exp x (e + 1) : Int) : ZMod group.N.toNat)
      = (x : ZMod group.N.toNat) * ((group.Exp x e : Int) : ZMod group.N.toNat) := by
  rw [Exp_cast group hN u x hx, Exp_cast group hN u x hx, hx, ← Units.val_mul, zpow_add_one,
    mul_comm]

theorem verify_succ_false (v : DFCommitmentOpeningVerifier) (s1 s2 : Int)
    (hN : 1 < v.receiver.QRSpecialRSA.N)
    (hG : Int.gcd v.receiver.G v.receiver.QRSpecialRSA.N = 1)
    (hH : Int.gcd v.receiver.H v.receiver.QRSpecialRSA.N = 1)
    (hG1 : v.receiver.G % v.receiver.QRSpecialRSA.N ≠ 1)
    (hv : v.Verify s1 s2 = some true) : v.Verify (s1 + 1) s2 = some false := by
  have hN0 : 0 < v.receiver.QRSpecialRSA.N := by omega
  obtain ⟨uG, huG⟩ := exists_unit_of_gcd _ hN0 _ hG
  obtain ⟨uH, huH⟩ := exists_unit_of_gcd _ hN0 _ hH
  unfold DFCommitmentOpeningVerifier.Verify at hv ⊢
  cases hc : v.challenge with
  | none => rw [hc] at hv; simp at hv
  | some c =>
    cases ht : v.proofRandomData with
    | none => rw [hc, ht] at hv; simp at hv
    | some t =>
      rw [hc, ht] at hv
      simp only [Option.some.injEq, decide_eq_true_eq, decide_eq_false_iff_not,
        DamgardFujisakiReceiver.ComputeCommit] at hv ⊢
      intro h
      rw [hv] at h
      have hcast := congrArg (Int.cast : Int → ZMod v.receiver.QRSpecialRSA.N.toNat) h
      rw [computeCommit_cast _ hN0 uG uH _ _ huG huH, computeCommit_cast _ hN0 uG uH _ _ huG huH]
        at hcast
      have hu : uG ^ s1 * uH ^ s2 = uG ^ (s1 + 1) * uH ^ s2 := Units.ext hcast
      rw [zpow_add_one, mul_assoc, mul_comm uG, ← mul_assoc] at hu
      have h1 : uG = 1 := by
        have hm : uG ^ s1 * uH ^ s2 * 1 = uG ^ s1 * uH ^ s2 * uG := by
          rw [mul_one]; exact hu
        exact (mul_left_cancel hm).symm
      apply hG1
      have hG2 : (v.receiver.G : ZMod v.receiver.QRSpecialRSA.N.toNat) = ((1 : Int) : ZMod _) := by
        rw [huG, h1]; simp
      rw [← emod_eq_iff_cast _ hN0] at hG2
      rw [hG2]
      exact Int.emod_eq_of_lt (by norm_num) hN

/-! ## The protocol properties -/

/-- C1. Completeness: for a modulus `N > 1`, generators `G`, `H` that are units modulo `N`,
a receiver holding the commitment `G^a * H^r mod N` of the opening `(a, r)` of the committer,
and a challenge `c` in `[0, 2^k)`: when `t` is the value returned by `GetProofRandomData`,
the verifier stores `t` with `SetProofRandomData` and holds the challenge `c`, the response
`(s1, s2)` of `GetProofData c` exists and `Verify s1 s2` returns `true`. -/
theorem opening_proof_complete (p p1 : DFCommitmentOpeningProver)
    (v : DFCommitmentOpeningVerifier) (src src1 : RandomSource) (t c : Int)
    (hN : 1 < p.committer.QRSpecialRSA.N)
    (hG : Int.gcd p.committer.G p.committer.QRSpecialRSA.N = 1)
    (hH : Int.gcd p.committer.H p.committer.QRSpecialRSA.N = 1)
    (hgroup : v.receiver.QRSpecialRSA = p.committer.QRSpecialRSA)
    (hvG : v.receiver.G = p.committer.G) (hvH : v.receiver.H = p.committer.H)
    (hcommit : v.receiver.Commitment
      = p.committer.ComputeCommit p.committer.GetDecommitMsg.1 p.committer.GetDecommitMsg.2)
    (hc : 0 ≤ c ∧ c < 2 ^ v.challengeSpaceSize.toNat)
    (hrun : p.GetProofRandomData src = some (t, p1, src1)) :
    ∃ s1 s2, p1.GetProofData c = some (s1, s2) ∧
      DFCommitmentOpeningVerifier.Verify
        { v.SetProofRandomData t with challenge := some c } s1 s2 = some true := by
  unfold DFCommitmentOpeningProver.GetProofRandomData at hrun
  cases h1 : GetRandomInt src p.r1Bound with
  | none => rw [h1] at hrun; simp at hrun
  | some d1 =>
    obtain ⟨x, srcA⟩ := d1
    rw [h1] at hrun
    simp only at hrun
    cases h2 : GetRandomInt srcA
        (DFCommitmentOpeningProver.r2Bound { p with r1 := some x }) with
    | none => rw [h2] at hrun; simp at hrun
    | some d2 =>
      obtain ⟨y, srcB⟩ := d2
      rw [h2] at hrun
      simp only [Option.some.injEq, Prod.mk.injEq] at hrun
      obtain ⟨ht, hp1, -⟩ := hrun
      subst hp1 ht
      refine ⟨c * p.committer.committedValue + x, c * p.committer.r + y, rfl, ?_⟩
      have hv := verify_honest p.committer.QRSpecialRSA p.committer.G p.committer.H
        p.committer.committedValue p.committer.r x y c v.challengeSpaceSize
        (by omega) hG hH
      obtain ⟨rcv, k, ch, prd⟩ := v
      obtain ⟨grp, G, H, C⟩ := rcv
      simp only at hgroup hvG hvH hcommit hc
      subst hgroup hvG hvH hcommit
      exact hv

/-- The run of `exProver` on `exSource` returns `t = 33`, and the response to the challenge
`2` is accepted. -/
theorem opening_proof_complete_witness :
    exProver.GetProofRandomData exSource
        = some (33, exProver1, { exSource with calls := 2 }) ∧
    ∃ s1 s2, exProver1.GetProofData 2 = some (s1, s2) ∧
      DFCommitmentOpeningVerifier.Verify
        { exVerifier.SetProofRandomData 33 with challenge := some 2 } s1 s2 = some true :=
  ⟨rfl, opening_proof_complete exProver exProver1 exVerifier exSource
    { exSource with calls := 2 } 33 2
    (by decide) (by decide) (by decide) rfl rfl rfl rfl (by decide) rfl⟩

/-- C2. Special soundness: two responses `(s1, s2)` and `(s1', s2')` of `GetProofData` from
the same prover state to distinct challenges `c1 ≠ c2` satisfy `(c1 - c2) ∣ s1 - s1'`,
`(c1 - c2) ∣ s2 - s2'`, `(s1 - s1') / (c1 - c2) = a` and `(s2 - s2') / (c1 - c2) = r`, where
`(a, r)` is the opening held by the committer. -/
theorem opening_proof_special_sound (p : DFCommitmentOpeningProver)
    (r1 r2 c1 c2 s1 s2 s1' s2' : Int)
    (hr1 : p.r1 = some r1) (hr2 : p.r2 = some r2) (hne : c1 ≠ c2)
    (h1 : p.GetProofData c1 = some (s1, s2)) (h2 : p.GetProofData c2 = some (s1', s2')) :
    (c1 - c2) ∣ (s1 - s1') ∧ (c1 - c2) ∣ (s2 - s2') ∧
      (s1 - s1') / (c1 - c2) = p.committer.GetDecommitMsg.1 ∧
      (s2 - s2') / (c1 - c2) = p.committer.GetDecommitMsg.2 := by
  have hd : c1 - c2 ≠ 0 := sub_ne_zero.mpr hne
  simp only [DFCommitmentOpeningProver.GetProofData, DamgardFujisakiCommitter.GetDecommitMsg,
    hr1, hr2, Option.some.injEq, Prod.mk.injEq] at h1 h2
  obtain ⟨rfl, rfl⟩ := h1
  obtain ⟨rfl, rfl⟩ := h2
  have e1 : c1 * p.committer.committedValue + r1 - (c2 * p.committer.committedValue + r1)
      = (c1 - c2) * p.committer.committedValue := by ring
  have e2 : c1 * p.committer.r + r2 - (c2 * p.committer.r + r2)
      = (c1 - c2) * p.committer.r := by ring
  simp only [DamgardFujisakiCommitter.GetDecommitMsg]
  rw [e1, e2]
  exact ⟨Dvd.intro _ rfl, Dvd.intro _ rfl, Int.mul_ediv_cancel_left _ hd,
    Int.mul_ediv_cancel_left _ hd⟩

/-- The responses of `exProver1` (`r1 = 6`, `r2 = 11`, opening `(5, 7)`) to the challenges
`3` and `1` are `(21, 32)` and `(11, 18)`; the quotients give back `5` and `7`. -/
theorem opening_proof_special_sound_witness :
    (exProver1.GetProofData 3 = some (21, 32) ∧ exProver1.GetProofData 1 = some (11, 18)) ∧
    (3 - 1 : Int) ∣ (21 - 11) ∧ (3 - 1 : Int) ∣ (32 - 18) ∧
      (21 - 11 : Int) / (3 - 1) = exProver1.committer.GetDecommitMsg.1 ∧
      (32 - 18 : Int) / (3 - 1) = exProver1.committer.GetDecommitMsg.2 :=
  ⟨by decide, opening_proof_special_sound exProver1 6 11 3 1 21 32 11 18 rfl rfl (by decide)
    (by decide) (by decide)⟩

/-- C3. For a verifier with stored proof random data `t` and stored challenge `c`,
`Verify s1 s2` returns `true` exactly when `(t * commitment^c) mod N = (G^s1 * H^s2) mod N`
and `false` exactly when the two sides differ; the powers are those of the group (`Exp`), and
for non-negative `c`, `s1`, `s2` they are the plain integer powers. -/
theorem verify_true_iff_equation (receiver : DamgardFujisakiReceiver) (k t c s1 s2 : Int) :
    (DFCommitmentOpeningVerifier.Verify
        { receiver := receiver, challengeSpaceSize := k, challenge := some c,
          proofRandomData := some t } s1 s2 = some true
      ↔ (t * receiver.QRSpecialRSA.Exp receiver.Commitment c) % receiver.QRSpecialRSA.N
          = (receiver.QRSpecialRSA.Exp receiver.G s1 * receiver.QRSpecialRSA.Exp receiver.H s2)
            % receiver.QRSpecialRSA.N) ∧
    (DFCommitmentOpeningVerifier.Verify
        { receiver := receiver, challengeSpaceSize := k, challenge := some c,
          proofRandomData := some t } s1 s2 = some false
      ↔ (t * receiver.QRSpecialRSA.Exp receiver.Commitment c) % receiver.QRSpecialRSA.N
          ≠ (receiver.QRSpecialRSA.Exp receiver.G s1 * receiver.QRSpecialRSA.Exp receiver.H s2)
            % receiver.QRSpecialRSA.N) ∧
    (0 ≤ c → 0 ≤ s1 → 0 ≤ s2 →
      (DFCommitmentOpeningVerifier.Verify
        { receiver := receiver, challengeSpaceSize := k, challenge := some c,
          proofRandomData := some t } s1 s2 = some true
      ↔ (t * receiver.Commitment ^ c.toNat) % receiver.QRSpecialRSA.N
          = (receiver.G ^ s1.toNat * receiver.H ^ s2.toNat) % receiver.QRSpecialRSA.N)) := by
  refine ⟨?_, ?_, fun hc h1 h2 => ?_⟩
  · simp only [DFCommitmentOpeningVerifier.Verify, DamgardFujisakiReceiver.ComputeCommit,
      computeCommit, QRSpecialRSA.Mul, Option.some.injEq, decide_eq_true_eq]
  · simp only [DFCommitmentOpeningVerifier.Verify, DamgardFujisakiReceiver.ComputeCommit,
      computeCommit, QRSpecialRSA.Mul, Option.some.injEq, decide_eq_false_iff_not, ne_eq]
  · simp only [DFCommitmentOpeningVerifier.Verify, DamgardFujisakiReceiver.ComputeCommit,
      computeCommit_nonneg _ _ _ _ _ h1 h2, Exp_nonneg_eq _ _ _ hc, Mul_emod_right,
      Option.some.injEq, decide_eq_true_eq]

/-- With modulus `35`, generators `2`, `3`, commitment `19`, `t = 33` and challenge `2`, the
response `(16, 25)` satisfies the equation and is accepted, the response `(17, 25)` is not. -/
theorem verify_true_iff_equation_witness :
    ((33 * exReceiver.Commitment ^ 2) % 35 = ((2 : Int) ^ 16 * 3 ^ 25) % 35 ∧
      DFCommitmentOpeningVerifier.Verify
        { receiver := exReceiver, challengeSpaceSize := 2, challenge := some 2,
          proofRandomData := some 33 } 16 25 = some true) ∧
    DFCommitmentOpeningVerifier.Verify
        { receiver := exReceiver, challengeSpaceSize := 2, challenge := some 2,
          proofRandomData := some 33 } 17 25 = some false :=
  ⟨⟨by decide, ((verify_true_iff_equation exReceiver 2 33 2 16 25).2.2 (by decide) (by decide)
    (by decide)).mpr (by decide)⟩, by decide⟩

/-- C4. For every prover state with `r1`, `r2` stored, every opening `(a, r)` and every
integer challenge (no range is checked), `GetProofData challenge` returns exactly
`s1 = r1 + challenge * a` and `s2 = r2 + challenge * r` as integers, without any reduction. -/
theorem getProofData_exact_integers (committer : DamgardFujisakiCommitter)
    (k r1 r2 challenge : Int) :
    DFCommitmentOpeningProver.GetProofData
        { committer := committer, challengeSpaceSize := k, r1 := some r1, r2 := some r2 }
        challenge
      = some (r1 + challenge * committer.GetDecommitMsg.1,
              r2 + challenge * committer.GetDecommitMsg.2) := by
  simp only [DFCommitmentOpeningProver.GetProofData, DamgardFujisakiCommitter.GetDecommitMsg,
    Option.some.injEq, Prod.mk.injEq]
  exact ⟨Int.add_comm _ _, Int.add_comm _ _⟩

/-- Where the exponent is neither negative nor wrapped. Assuming every draw of the
randomness source lies in `[0, bound)`: for `T > 0` and `0 ≤ nLen + k < 2^63` (`nLen` the
bit length of `N`, `k` the challenge-space size), the bound of the first draw of
`GetProofRandomData` is exactly `T * 2^(nLen + k)`, the call returns, and the stored `r1` is
the value drawn for that bound, with `0 ≤ r1 < T * 2^(nLen + k)`. -/
theorem getProofRandomData_r1_in_range (p : DFCommitmentOpeningProver) (src : RandomSource)
    (hT : 0 < p.committer.T)
    (hlo : 0 ≤ BitLen p.committer.QRSpecialRSA.N + p.challengeSpaceSize)
    (hhi : BitLen p.committer.QRSpecialRSA.N + p.challengeSpaceSize < 2 ^ 63)
    (hsrc : src.InRange) :
    p.r1Bound = p.committer.T
        * 2 ^ (BitLen p.committer.QRSpecialRSA.N + p.challengeSpaceSize).toNat ∧
    ∃ t p1 src1 r1, p.GetProofRandomData src = some (t, p1, src1) ∧ p1.r1 = some r1 ∧
      r1 = src.sample src.calls (p.committer.T
        * 2 ^ (BitLen p.committer.QRSpecialRSA.N + p.challengeSpaceSize).toNat) ∧
      0 ≤ r1 ∧
      r1 < p.committer.T
        * 2 ^ (BitLen p.committer.QRSpecialRSA.N + p.challengeSpaceSize).toNat := by
  have hb := r1Bound_eq p hlo hhi
  have hpos : 0 < p.r1Bound := by rw [hb]; positivity
  refine ⟨hb, _, _, _, _, GetProofRandomData_eq p src hpos, rfl, ?_, ?_, ?_⟩
  · rw [hb]
  · exact (hsrc _ _ hpos).1
  · rw [← hb]; exact (hsrc _ _ hpos).2

/-- For `exProver` (`N = 35` of bit length `6`, `k = 2`, `T = 4`) the first bound is
`4 * 2^8` and the stored `r1` lies below it. -/
theorem getProofRandomData_r1_in_range_witness :
    exProver.r1Bound = 4 * 2 ^ 8 ∧
    ∃ t p1 src1 r1, exProver.GetProofRandomData exSource = some (t, p1, src1) ∧
      p1.r1 = some r1 ∧ r1 = exSource.sample 0 (4 * 2 ^ 8) ∧ 0 ≤ r1 ∧ r1 < 4 * 2 ^ 8 :=
  getProofRandomData_r1_in_range exProver exSource (by decide) (by decide) (by decide)
    exSource_inRange

/-- C5. The code departs from the bound `T * 2^(nLen + k)` that the claim and the comment
in the source give for `r1`. With `T = 4`, `N = 5` (bit length `3`) and the challenge-space
size `-10`, the bound of the first draw is `4`, and a source within range stores `r1 = 3`,
while `T * 2^(nLen + k) = 4 * 2^(-7) = 1/32`. With `T = 4`, `N = 1` and the challenge-space
size `2^63 - 1`, the sum `nLen + k` wraps and the bound of the first draw is `4`, not
`4 * 2^(2^63)`. -/
theorem getProofRandomData_r1_bound_fails :
    (0 < negProver.committer.T ∧ topSource.InRange ∧
      negProver.r1Bound = 4 ∧
      (negProver.GetProofRandomData topSource).map (fun x => x.2.1.r1) = some (some 3) ∧
      (negProver.committer.T : ℚ)
        * 2 ^ (BitLen negProver.committer.QRSpecialRSA.N + negProver.challengeSpaceSize)
        = 1 / 32 ∧
      ((negProver.r1Bound : Int) : ℚ) ≠ (negProver.committer.T : ℚ)
        * 2 ^ (BitLen negProver.committer.QRSpecialRSA.N + negProver.challengeSpaceSize) ∧
      ¬ ((3 : ℚ) < (negProver.committer.T : ℚ)
        * 2 ^ (BitLen negProver.committer.QRSpecialRSA.N + negProver.challengeSpaceSize))) ∧
    (0 < bigProver.committer.T ∧ bigProver.r1Bound = 4 ∧
      bigProver.r1Bound ≠ bigProver.committer.T
        * 2 ^ (BitLen bigProver.committer.QRSpecialRSA.N
          + bigProver.challengeSpaceSize).toNat) := by
  have hq : (negProver.committer.T : ℚ)
      * 2 ^ (BitLen negProver.committer.QRSpecialRSA.N + negProver.challengeSpaceSize)
      = 1 / 32 := by
    have h : BitLen negProver.committer.QRSpecialRSA.N + negProver.challengeSpaceSize = -7 := by
      decide
    rw [h]
    show (4 : ℚ) * 2 ^ (-7 : ℤ) = 1 / 32
    norm_num [zpow_neg]
  have hb : negProver.r1Bound = 4 := by decide
  have hB : bigProver.r1Bound = 4 := by decide
  refine ⟨⟨by decide, topSource_inRange, hb, by decide, hq, ?_, ?_⟩, by decide, hB, ?_⟩
  · rw [hq, hb]; norm_num
  · rw [hq]; norm_num
  · have h : BitLen bigProver.committer.QRSpecialRSA.N = 1 := by decide
    have hk : bigProver.challengeSpaceSize = 2 ^ 63 - 1 := rfl
    have hT : bigProver.committer.T = 4 := rfl
    have h2 := one_lt_two_pow_toNat
      (BitLen bigProver.committer.QRSpecialRSA.N + bigProver.challengeSpaceSize)
      (by rw [h, hk]; norm_num)
    rw [hT, hB]
    intro heq
    linarith

/-- Where the exponent is neither negative nor wrapped. Assuming every draw of the
randomness source lies in `[0, bound)`: for `T > 0` (so that the first draw has a result) and
`0 ≤ B + 2 * nLen + k < 2^63` (`nLen` the bit length of `N`, `k` the challenge-space size,
`B` the hiding parameter), the bound of the second draw of `GetProofRandomData` is exactly
`2^(B + 2 * nLen + k)`, the call returns, and the stored `r2` is the value drawn for that
bound, with `0 ≤ r2 < 2^(B + 2 * nLen + k)`. -/
theorem getProofRandomData_r2_in_range (p : DFCommitmentOpeningProver) (src : RandomSource)
    (hT : 0 < p.committer.T)
    (hlo : 0 ≤ p.committer.B + 2 * BitLen p.committer.QRSpecialRSA.N + p.challengeSpaceSize)
    (hhi : p.committer.B + 2 * BitLen p.committer.QRSpecialRSA.N + p.challengeSpaceSize
      < 2 ^ 63)
    (hsrc : src.InRange) :
    p.r2Bound = 2 ^ (p.committer.B + 2 * BitLen p.committer.QRSpecialRSA.N
        + p.challengeSpaceSize).toNat ∧
    ∃ t p1 src1 r2, p.GetProofRandomData src = some (t, p1, src1) ∧ p1.r2 = some r2 ∧
      r2 = src.sample (src.calls + 1) (2 ^ (p.committer.B
        + 2 * BitLen p.committer.QRSpecialRSA.N + p.challengeSpaceSize).toNat) ∧
      0 ≤ r2 ∧
      r2 < 2 ^ (p.committer.B + 2 * BitLen p.committer.QRSpecialRSA.N
        + p.challengeSpaceSize).toNat := by
  have hb := r2Bound_eq p hlo hhi
  have hpos1 : 0 < p.r1Bound := r1Bound_pos p hT
  have hpos : 0 < p.r2Bound := r2Bound_pos p
  refine ⟨hb, _, _, _, _, GetProofRandomData_eq p src hpos1, rfl, ?_, ?_, ?_⟩
  · rw [hb]
  · exact (hsrc _ _ hpos).1
  · rw [← hb]; exact (hsrc _ _ hpos).2

/-- For `exProver` (`B = 1`, `N = 35` of bit length `6`, `k = 2`) the second bound is `2^15`
and the stored `r2` lies below it. -/
theorem getProofRandomData_r2_in_range_witness :
    exProver.r2Bound = 2 ^ 15 ∧
    ∃ t p1 src1 r2, exProver.GetProofRandomData exSource = some (t, p1, src1) ∧
      p1.r2 = some r2 ∧ r2 = exSource.sample (0 + 1) (2 ^ 15) ∧ 0 ≤ r2 ∧ r2 < 2 ^ 15 :=
  getProofRandomData_r2_in_range exProver exSource (by decide) (by decide) (by decide)
    exSource_inRange

/-- C6. The code departs from the bound `2^(B + 2 * nLen + k)` that the claim and the
comment in the source give for `r2`. With `B = 0`, `N = 5` (bit length `3`) and the
challenge-space size `-10`, the bound of the second draw is `1`, while
`2^(B + 2 * nLen + k) = 2^(-4) = 1/16`. With `B = 0`, `N = 1` and the challenge-space size
`2^63 - 1`, the sum wraps and the bound of the second draw is `1`, not `2^(2^63 + 1)`. -/
theorem getProofRandomData_r2_bound_fails :
    (0 < negProver.committer.T ∧ topSource.InRange ∧
      negProver.r2Bound = 1 ∧
      (negProver.GetProofRandomData topSource).map (fun x => x.2.1.r2) = some (some 0) ∧
      (2 : ℚ) ^ (negProver.committer.B + 2 * BitLen negProver.committer.QRSpecialRSA.N
        + negProver.challengeSpaceSize) = 1 / 16 ∧
      ((negProver.r2Bound : Int) : ℚ)
        ≠ (2 : ℚ) ^ (negProver.committer.B + 2 * BitLen negProver.committer.QRSpecialRSA.N
          + negProver.challengeSpaceSize)) ∧
    (0 < bigProver.committer.T ∧ bigProver.r2Bound = 1 ∧
      bigProver.r2Bound
        ≠ 2 ^ (bigProver.committer.B + 2 * BitLen bigProver.committer.QRSpecialRSA.N
          + bigProver.challengeSpaceSize).toNat) := by
  have hq : (2 : ℚ) ^ (negProver.committer.B + 2 * BitLen negProver.committer.QRSpecialRSA.N
        + negProver.challengeSpaceSize) = 1 / 16 := by
    have h : negProver.committer.B + 2 * BitLen negProver.committer.QRSpecialRSA.N
        + negProver.challengeSpaceSize = -4 := by decide
    rw [h]
    norm_num [zpow_neg]
  have hb : negProver.r2Bound = 1 := by decide
  have hB : bigProver.r2Bound = 1 := by decide
  refine ⟨⟨by decide, topSource_inRange, hb, by decide, hq, ?_⟩, by decide, hB, ?_⟩
  · rw [hq, hb]; norm_num
  · have h : BitLen bigProver.committer.QRSpecialRSA.N = 1 := by decide
    have hk : bigProver.challengeSpaceSize = 2 ^ 63 - 1 := rfl
    have hB0 : bigProver.committer.B = 0 := rfl
    have h2 := one_lt_two_pow_toNat
      (bigProver.committer.B + 2 * BitLen bigProver.committer.QRSpecialRSA.N
        + bigProver.challengeSpaceSize)
      (by rw [h, hk, hB0]; norm_num)
    rw [hB]
    exact h2.ne

/-- C7. Assuming every draw of the randomness source lies in `[0, bound)`: for every verifier
state (proof random data stored or not) and every challenge-space size `k ≥ 0`,
`GetChallenge` returns; the value returned is the draw for the bound `2^k`, it satisfies
`0 ≤ challenge < 2^k`, and the challenge stored afterwards is the value returned. -/
theorem getChallenge_in_range (v : DFCommitmentOpeningVerifier) (src : RandomSource)
    (hk : 0 ≤ v.challengeSpaceSize) (hsrc : src.InRange) :
    (v.challengeSpaceSize.toNat : Int) = v.challengeSpaceSize ∧
    ∃ c v1 src1, v.GetChallenge src = some (c, v1, src1) ∧
      c = src.sample src.calls (2 ^ v.challengeSpaceSize.toNat) ∧
      0 ≤ c ∧ c < 2 ^ v.challengeSpaceSize.toNat ∧
      v1.challenge = some c := by
  have hpos : (0 : Int) < bigExp 2 v.challengeSpaceSize := bigExp_two_pos _
  have hexp : (2 : Int) ^ v.challengeSpaceSize.toNat = bigExp 2 v.challengeSpaceSize := by
    rw [bigExp_eq]
  refine ⟨Int.toNat_of_nonneg hk, src.sample src.calls (bigExp 2 v.challengeSpaceSize),
    { v with challenge := some (src.sample src.calls (bigExp 2 v.challengeSpaceSize)) },
    { src with calls := src.calls + 1 }, ?_, ?_, (hsrc _ _ hpos).1, ?_, rfl⟩
  · simp only [DFCommitmentOpeningVerifier.GetChallenge]
    rw [GetRandomInt_pos _ _ hpos]
  · rw [hexp]
  · rw [hexp]; exact (hsrc _ _ hpos).2

/-- On the fresh verifier `exVerifier` (`k = 2`, no proof random data stored) the challenge is
drawn for the bound `2^2`. -/
theorem getChallenge_in_range_witness :
    ((2 : Int).toNat : Int) = 2 ∧
    ∃ c v1 src1, exVerifier.GetChallenge exSource = some (c, v1, src1) ∧
      c = exSource.sample 0 (2 ^ 2) ∧ 0 ≤ c ∧ c < 2 ^ 2 ∧ v1.challenge = some c :=
  getChallenge_in_range exVerifier exSource (by decide) exSource_inRange

/-- C8. Tampering with `s1` is rejected: for a modulus `N > 1` and generators `G`, `H` that
are units modulo `N` with `G` not congruent to `1`, whenever `Verify s1 s2` returns `true` on
a verifier holding `t` and `c`, `Verify (s1 + 1) s2` returns `false`. In particular the honest
response `(s1, s2)` of `GetProofData` for the opening `a = 5`, `r = 7` is rejected after `s1`
is incremented. -/
theorem verify_rejects_s1_succ (group : QRSpecialRSA) (G H : Int)
    (hN : 1 < group.N) (hG : Int.gcd G group.N = 1) (hH : Int.gcd H group.N = 1)
    (hG1 : G % group.N ≠ 1) :
    (∀ (commitment k t c s1 s2 : Int),
      DFCommitmentOpeningVerifier.Verify
        { receiver := { QRSpecialRSA := group, G := G, H := H, Commitment := commitment },
          challengeSpaceSize := k, challenge := some c, proofRandomData := some t }
        s1 s2 = some true →
      DFCommitmentOpeningVerifier.Verify
        { receiver := { QRSpecialRSA := group, G := G, H := H, Commitment := commitment },
          challengeSpaceSize := k, challenge := some c, proofRandomData := some t }
        (s1 + 1) s2 = some false) ∧
    (∀ (T B k r1 r2 c s1 s2 : Int),
      DFCommitmentOpeningProver.GetProofData
        { committer := { QRSpecialRSA := group, G := G, H := H, T := T, B := B,
                         committedValue := 5, r := 7 },
          challengeSpaceSize := k, r1 := some r1, r2 := some r2 } c = some (s1, s2) →
      DFCommitmentOpeningVerifier.Verify
        { receiver := { QRSpecialRSA := group, G := G, H := H,
                        Commitment := computeCommit group G H 5 7 },
          challengeSpaceSize := k, challenge := some c,
          proofRandomData := some (computeCommit group G H r1 r2) }
        (s1 + 1) s2 = some false) := by
  refine ⟨fun commitment k t c s1 s2 hv => ?_, fun T B k r1 r2 c s1 s2 hs => ?_⟩
  · exact verify_succ_false _ s1 s2 hN hG hH hG1 hv
  · simp only [DFCommitmentOpeningProver.GetProofData,
      DamgardFujisakiCommitter.GetDecommitMsg, Option.some.injEq, Prod.mk.injEq] at hs
    obtain ⟨rfl, rfl⟩ := hs
    exact verify_succ_false _ _ _ hN hG hH hG1
      (verify_honest group G H 5 7 r1 r2 c k (by omega) hG hH)

/-- With modulus `35`, generators `2`, `3`, commitment of `(5, 7)`, `t = 33` and challenge
`2`, the response `(16, 25)` is accepted and `(17, 25)` is rejected. -/
theorem verify_rejects_s1_succ_witness :
    DFCommitmentOpeningVerifier.Verify
        { receiver := exReceiver, challengeSpaceSize := 2, challenge := some 2,
          proofRandomData := some 33 } 16 25 = some true ∧
    DFCommitmentOpeningVerifier.Verify
        { receiver := exReceiver, challengeSpaceSize := 2, challenge := some 2,
          proofRandomData := some 33 } (16 + 1) 25 = some false :=
  ⟨by decide, (verify_rejects_s1_succ { N := 35 } 2 3 (by decide) (by decide) (by decide)
    (by decide)).1 (exCommitter.ComputeCommit 5 7) 2 33 2 16 25 (by decide)⟩

/-- C9. When the randomness source delivers `x` and then `y` for the two draws of one
`GetProofRandomData` call, the call returns `ComputeCommit x y`, the stored session state
afterwards is `(r1, r2) = (x, y)` whatever `r1`, `r2` were before (a prover that differs only
in `r1`, `r2` gives the same result), and for `x, y ≥ 0` the returned value is
`G^x * H^y mod N`. -/
theorem getProofRandomData_overwrites (p : DFCommitmentOpeningProver)
    (src src1 src2 : RandomSource) (x y : Int)
    (h1 : GetRandomInt src p.r1Bound = some (x, src1))
    (h2 : GetRandomInt src1 p.r2Bound = some (y, src2)) :
    p.GetProofRandomData src
        = some (p.committer.ComputeCommit x y, { p with r1 := some x, r2 := some y }, src2) ∧
    (∀ q : DFCommitmentOpeningProver, q.committer = p.committer →
      q.challengeSpaceSize = p.challengeSpaceSize →
      q.GetProofRandomData src = p.GetProofRandomData src) ∧
    (0 ≤ x → 0 ≤ y →
      p.committer.ComputeCommit x y
        = (p.committer.G ^ x.toNat * p.committer.H ^ y.toNat)
            % p.committer.QRSpecialRSA.N) := by
  refine ⟨?_, ?_, fun hx hy => computeCommit_nonneg _ _ _ _ _ hx hy⟩
  · unfold DFCommitmentOpeningProver.GetProofRandomData
    rw [h1]
    simp only
    have hsame : DFCommitmentOpeningProver.r2Bound { p with r1 := some x } = p.r2Bound := rfl
    rw [hsame, h2]
  · intro q hq hk
    obtain ⟨qc, qk, q1, q2⟩ := q
    obtain ⟨pc, pk, p1, p2⟩ := p
    simp only at hq hk
    subst hq hk
    rfl

/-- A prover that already holds `r1 = 6`, `r2 = 11` draws `16` and `21` from the source
after two earlier draws; afterwards it holds exactly `(16, 21)` and has returned
`2^16 * 3^21 mod 35`. -/
theorem getProofRandomData_overwrites_witness :
    exProver1.GetProofRandomData { exSource with calls := 2 }
      = some (exProver1.committer.ComputeCommit 16 21,
          { exProver1 with r1 := some 16, r2 := some 21 }, { exSource with calls := 4 }) ∧
    exProver1.committer.ComputeCommit 16 21 = ((2 : Int) ^ 16 * 3 ^ 21) % 35 :=
  ⟨(getProofRandomData_overwrites exProver1 { exSource with calls := 2 }
      { exSource with calls := 3 } { exSource with calls := 4 } 16 21 rfl rfl).1,
    (getProofRandomData_overwrites exProver1 { exSource with calls := 2 }
      { exSource with calls := 3 } { exSource with calls := 4 } 16 21 rfl rfl).2.2
      (by decide) (by decide)⟩

/-- C10. For every verifier state and every integer `t` (a group element or not),
`SetProofRandomData t` is total; afterwards the stored proof random data is `t` itself, and
the stored challenge, the receiver and the challenge-space size are unchanged. -/
theorem setProofRandomData_verbatim (v : DFCommitmentOpeningVerifier) (t : Int) :
    (v.SetProofRandomData t).proofRandomData = some t ∧
      (v.SetProofRandomData t).challenge = v.challenge ∧
      (v.SetProofRandomData t).receiver = v.receiver ∧
      (v.SetProofRandomData t).challengeSpaceSize = v.challengeSpaceSize :=
  ⟨rfl, rfl, rfl, rfl⟩

/-! ## Further lemmas -/

theorem xor_two_pow_cases (i : Nat) : ∀ n : Nat,
    n ^^^ 2 ^ i = n + 2 ^ i ∨ (n ^^^ 2 ^ i) + 2 ^ i = n := by
  induction i with
  | zero =>
    intro n
    have hd : (n ^^^ 2 ^ 0) / 2 = n / 2 := by
      rw [Nat.xor_div_two]; simp
    have hm : (n ^^^ 2 ^ 0) % 2 = (n + 1) % 2 := by
      rw [Nat.xor_mod_two_eq]; simp
    simp only [pow_zero] at hd hm ⊢
    omega
  | succ i ih =>
    intro n
    have hd : (n ^^^ 2 ^ (i + 1)) / 2 = n / 2 ^^^ 2 ^ i := by
      rw [Nat.xor_div_two, pow_succ, Nat.mul_div_cancel _ (by norm_num : 0 < 2)]
    have hm : (n ^^^ 2 ^ (i + 1)) % 2 = n % 2 := by
      rw [Nat.xor_mod_two_eq, pow_succ, Nat.add_mul_mod_self_right]
    have hp : 2 ^ (i + 1) = 2 * 2 ^ i := by rw [pow_succ, mul_comm]
    rcases ih (n / 2) with h | h
    · left; rw [h] at hd; omega
    · right; rw [← hd] at h; omega

theorem flipBit_cases (t : Int) (i : Nat) :
    flipBit t i = t + 2 ^ i ∨ flipBit t i = t - 2 ^ i := by
  unfold flipBit
  have hz : ((2 ^ i : Nat) : Int) = 2 ^ i := by
    rw [Nat.cast_pow, Nat.cast_ofNat]
  have hc : ((t.natAbs ^^^ 2 ^ i : Nat) : Int) = (t.natAbs : Int) + 2 ^ i
      ∨ ((t.natAbs ^^^ 2 ^ i : Nat) : Int) + 2 ^ i = (t.natAbs : Int) := by
    rcases xor_two_pow_cases i t.natAbs with h1 | h1
    · left; rw [h1, Nat.cast_add, hz]
    · right; rw [← hz, ← Nat.cast_add, h1]
  split
  · rcases hc with h1 | h1
    · right; omega
    · left; omega
  · rcases hc with h1 | h1
    · left; omega
    · right; omega

theorem odd_not_dvd_two_pow (N : Int) (hN : 1 < N) (hodd : N % 2 = 1) (i : Nat) :
    ¬ N ∣ 2 ^ i := by
  intro h
  have hco : IsCoprime N (2 ^ i : Int) := by
    apply IsCoprime.pow_right
    rw [Int.isCoprime_iff_gcd_eq_one]
    have : Int.gcd N 2 ∣ 2 := by
      have hr : ((Int.gcd N 2 : Nat) : Int) ∣ 2 := Int.gcd_dvd_right
      exact_mod_cast Int.natCast_dvd_natCast.mp (by simpa using hr)
    have h2 : Int.gcd N 2 = 1 ∨ Int.gcd N 2 = 2 := by
      have := Nat.le_of_dvd (by norm_num) this
      have hpos : 0 < Int.gcd N 2 := Int.gcd_pos_of_ne_zero_right _ (by norm_num)
      interval_cases (Int.gcd N 2) <;> simp_all
    rcases h2 with h2 | h2
    · exact h2
    · exfalso
      have : (2 : Int) ∣ N := by
        have hl : ((Int.gcd N 2 : Nat) : Int) ∣ N := Int.gcd_dvd_left
        rw [h2] at hl
        exact_mod_cast hl
      omega
  have h1 : IsUnit N := hco.isUnit_of_dvd' dvd_rfl h
  rcases Int.isUnit_iff.mp h1 with h1 | h1 <;> omega

theorem flipBit_not_congr (N : Int) (hN : 1 < N) (hodd : N % 2 = 1) (t : Int) (i : Nat) :
    flipBit t i % N ≠ t % N := by
  intro h
  have hd : N ∣ flipBit t i - t := Int.ModEq.dvd (Int.ModEq.symm h)
  rcases flipBit_cases t i with hc | hc
  · rw [hc] at hd
    have : t + 2 ^ i - t = 2 ^ i := by ring
    rw [this] at hd
    exact odd_not_dvd_two_pow N hN hodd i hd
  · rw [hc] at hd
    have : t - 2 ^ i - t = -(2 ^ i) := by ring
    rw [this] at hd
    exact odd_not_dvd_two_pow N hN hodd i ((Int.dvd_neg).mp hd)

theorem verify_other_t_false (receiver : DamgardFujisakiReceiver) (k t t' c s1 s2 : Int)
    (hN : 1 < receiver.QRSpecialRSA.N)
    (hC : Int.gcd receiver.Commitment receiver.QRSpecialRSA.N = 1)
    (hv : DFCommitmentOpeningVerifier.Verify
        { receiver := receiver, challengeSpaceSize := k, challenge := some c,
          proofRandomData := some t } s1 s2 = some true)
    (ht : t' % receiver.QRSpecialRSA.N ≠ t % receiver.QRSpecialRSA.N) :
    DFCommitmentOpeningVerifier.Verify
        { receiver := receiver, challengeSpaceSize := k, challenge := some c,
          proofRandomData := some t' } s1 s2 = some false := by
  have hN0 : 0 < receiver.QRSpecialRSA.N := by omega
  obtain ⟨u, hu⟩ := exists_unit_of_gcd _ hN0 _ hC
  simp only [DFCommitmentOpeningVerifier.Verify, Option.some.injEq, decide_eq_true_eq,
    decide_eq_false_iff_not] at hv ⊢
  intro h
  rw [← hv] at h
  apply ht
  unfold QRSpecialRSA.Mul at h
  rw [emod_eq_iff_cast _ hN0] at h ⊢
  rw [Int.cast_mul, Int.cast_mul, Exp_cast _ hN0 u _ hu] at h
  exact (Units.mul_left_inj (u ^ c)).mp h

/-- C11. Tampering with `t` is rejected: for a modulus `N > 1`, a commitment that is a unit
modulo `N`, every challenge `c` (in particular `c ≥ 0`) and every response `(s1, s2)`, if
`Verify s1 s2` returns `true` with the stored proof random data `t`, then with any stored
`t'` not congruent to `t` modulo `N` and the same challenge it returns `false`; for odd `N`
this holds for every `t'` obtained from `t` by flipping one bit. -/
theorem verify_rejects_other_t (receiver : DamgardFujisakiReceiver) (k t c s1 s2 : Int)
    (hN : 1 < receiver.QRSpecialRSA.N)
    (hC : Int.gcd receiver.Commitment receiver.QRSpecialRSA.N = 1)
    (hv : DFCommitmentOpeningVerifier.Verify
        { receiver := receiver, challengeSpaceSize := k, challenge := some c,
          proofRandomData := some t } s1 s2 = some true) :
    (∀ t' : Int, t' % receiver.QRSpecialRSA.N ≠ t % receiver.QRSpecialRSA.N →
      DFCommitmentOpeningVerifier.Verify
        { receiver := receiver, challengeSpaceSize := k, challenge := some c,
          proofRandomData := some t' } s1 s2 = some false) ∧
    (receiver.QRSpecialRSA.N % 2 = 1 → ∀ i : Nat,
      DFCommitmentOpeningVerifier.Verify
        { receiver := receiver, challengeSpaceSize := k, challenge := some c,
          proofRandomData := some (flipBit t i) } s1 s2 = some false) :=
  ⟨fun t' ht => verify_other_t_false receiver k t t' c s1 s2 hN hC hv ht,
    fun hodd i => verify_other_t_false receiver k t (flipBit t i) c s1 s2 hN hC hv
      (flipBit_not_congr _ hN hodd t i)⟩

/-- With modulus `35`, commitment `19`, `t = 33`, challenge `2` and the accepted response
`(16, 25)`: storing `34` instead of `33`, or `33` with bit `3` flipped (`41`), is rejected. -/
theorem verify_rejects_other_t_witness :
    DFCommitmentOpeningVerifier.Verify
        { receiver := exReceiver, challengeSpaceSize := 2, challenge := some 2,
          proofRandomData := some 33 } 16 25 = some true ∧
    DFCommitmentOpeningVerifier.Verify
        { receiver := exReceiver, challengeSpaceSize := 2, challenge := some 2,
          proofRandomData := some 34 } 16 25 = some false ∧
    (flipBit 33 3 = 41 ∧
      DFCommitmentOpeningVerifier.Verify
        { receiver := exReceiver, challengeSpaceSize := 2, challenge := some 2,
          proofRandomData := some (flipBit 33 3) } 16 25 = some false) :=
  ⟨by decide,
    (verify_rejects_other_t exReceiver 2 33 2 16 25 (by decide) (by decide) (by decide)).1 34
      (by decide),
    by decide,
    (verify_rejects_other_t exReceiver 2 33 2 16 25 (by decide) (by decide) (by decide)).2
      (by decide) 3⟩

/-- C12 (amended). No call order is checked, and on a freshly constructed verifier
(challenge and proof random data both unset) `Verify s1 s2` yields no boolean, for every
`s1`, `s2`: the call has no result, because the unset challenge is a nil pointer. -/
theorem verify_fresh_no_result (receiver : DamgardFujisakiReceiver) (k s1 s2 : Int) :
    (NewDFCommitmentOpeningVerifier receiver k).challenge = none ∧
    (NewDFCommitmentOpeningVerifier receiver k).proofRandomData = none ∧
    (NewDFCommitmentOpeningVerifier receiver k).Verify s1 s2 = none ∧
    (∀ b : Bool, (NewDFCommitmentOpeningVerifier receiver k).Verify s1 s2 ≠ some b) := by
  refine ⟨rfl, rfl, rfl, fun b h => ?_⟩
  have h0 : (NewDFCommitmentOpeningVerifier receiver k).Verify s1 s2 = none := rfl
  rw [h0] at h
  exact Option.noConfusion h

/-- C12 fails as stated: on the freshly constructed verifier `exVerifier` the call
`Verify 16 25` has no result, so it returns neither `true` nor `false`. -/
theorem verify_fresh_no_boolean :
    exVerifier.challenge = none ∧ exVerifier.proofRandomData = none ∧
    exVerifier.Verify 16 25 = none ∧ ¬ ∃ b : Bool, exVerifier.Verify 16 25 = some b := by
  refine ⟨rfl, rfl, rfl, ?_⟩
  rintro ⟨b, hb⟩
  have h : exVerifier.Verify 16 25 = none := rfl
  rw [h] at hb
  exact Option.noConfusion hb

theorem Exp_add_period (group : QRSpecialRSA) (G s m : Int) (hs : 0 ≤ s) (hm : 0 < m)
    (hG : G ^ m.toNat % group.N = 1 % group.N) :
    group.Exp G (s + m) = group.Exp G s := by
  rw [Exp_nonneg_eq _ _ _ (by omega), Exp_nonneg_eq _ _ _ hs, Int.toNat_add hs hm.le, pow_add,
    Int.mul_emod, hG, ← Int.mul_emod, mul_one]

theorem Mul_add_modulus (group : QRSpecialRSA) (t e : Int) :
    group.Mul (t + group.N) e = group.Mul t e := by
  unfold QRSpecialRSA.Mul
  rw [Int.add_mul, Int.add_mul_emod_self_left]

/-- C13. Accepted responses are not unique: for every verifier state, every response
`(s1, s2)` with `s1 ≥ 0` and every `m > 0` with `G^m ≡ 1 (mod N)`,
`Verify (s1 + m) s2 = Verify s1 s2`; and storing `t + N` instead of `t` gives the same
verdict for every response. -/
theorem verify_response_not_unique (v : DFCommitmentOpeningVerifier) (s1 s2 m : Int)
    (hs : 0 ≤ s1) (hm : 0 < m)
    (hG : v.receiver.G ^ m.toNat % v.receiver.QRSpecialRSA.N
      = 1 % v.receiver.QRSpecialRSA.N) :
    v.Verify (s1 + m) s2 = v.Verify s1 s2 ∧
    (∀ t : Int,
      DFCommitmentOpeningVerifier.Verify
          { v with proofRandomData := some (t + v.receiver.QRSpecialRSA.N) } s1 s2
        = DFCommitmentOpeningVerifier.Verify { v with proofRandomData := some t } s1 s2) := by
  constructor
  · unfold DFCommitmentOpeningVerifier.Verify DamgardFujisakiReceiver.ComputeCommit
      computeCommit
    rw [Exp_add_period _ _ _ _ hs hm hG]
  · intro t
    unfold DFCommitmentOpeningVerifier.Verify
    cases v.challenge with
    | none => rfl
    | some c => simp only [Mul_add_modulus]

/-- With modulus `35` and `G = 2`, `2^12 ≡ 1`: the response `(16 + 12, 25)` is accepted like
`(16, 25)`, and so is `(16, 25)` when `33 + 35` is stored instead of `33`. -/
theorem verify_response_not_unique_witness :
    (DFCommitmentOpeningVerifier.Verify
        { receiver := exReceiver, challengeSpaceSize := 2, challenge := some 2,
          proofRandomData := some 33 } 16 25 = some true ∧
      DFCommitmentOpeningVerifier.Verify
        { receiver := exReceiver, challengeSpaceSize := 2, challenge := some 2,
          proofRandomData := some 33 } (16 + 12) 25 = some true ∧
      DFCommitmentOpeningVerifier.Verify
        { receiver := exReceiver, challengeSpaceSize := 2, challenge := some 2,
          proofRandomData := some (33 + 35) } 16 25 = some true) ∧
    DFCommitmentOpeningVerifier.Verify
        { receiver := exReceiver, challengeSpaceSize := 2, challenge := some 2,
          proofRandomData := some 33 } (16 + 12) 25
      = DFCommitmentOpeningVerifier.Verify
        { receiver := exReceiver, challengeSpaceSize := 2, challenge := some 2,
          proofRandomData := some 33 } 16 25 :=
  ⟨⟨by decide, by decide, by decide⟩,
    (verify_response_not_unique
      { receiver := exReceiver, challengeSpaceSize := 2, challenge := some 2,
        proofRandomData := some 33 } 16 25 12 (by decide) (by decide) (by decide)).1⟩

/-! ## Lemmas on the store -/

namespace Mem

theorem Store.Ext.refl (st : Store) : st.Ext st := ⟨le_refl _, fun _ _ => rfl⟩

theorem Store.Ext.trans {st st1 st2 : Store} (h1 : st.Ext st1) (h2 : st1.Ext st2) :
    st.Ext st2 :=
  ⟨le_trans h1.1 h2.1, fun a ha => by rw [h2.2 a (lt_of_lt_of_le ha h1.1), h1.2 a ha]⟩

theorem Store.load_some (st : Store) (a : Nat) :
    st.load (some a) = if a < st.next then some (st.cells a) else none := rfl

theorem Store.Ext.load {st st1 : Store} (h : st.Ext st1) (p : Option Nat) (v : Int)
    (hp : st.load p = some v) : st1.load p = some v := by
  cases p with
  | none => exact Option.noConfusion hp
  | some a =>
    rw [Store.load_some] at hp ⊢
    by_cases ha : a < st.next
    · rw [if_pos ha] at hp
      rw [if_pos (lt_of_lt_of_le ha h.1), h.2 a ha]
      exact hp
    · rw [if_neg ha] at hp
      exact Option.noConfusion hp

theorem Store.alloc_ext (st : Store) : st.Ext st.alloc.2 :=
  ⟨Nat.le_succ _, fun _ ha => Function.update_noteq (Nat.ne_of_lt ha) _ _⟩

theorem Store.set_ext {st0 st : Store} (h : st0.Ext st) (z : Nat) (hz : st0.next ≤ z)
    (v : Int) : st0.Ext (st.set z v) :=
  ⟨h.1, fun a ha => by
    show Function.update st.cells z v a = st0.cells a
    rw [Function.update_noteq (Nat.ne_of_lt (lt_of_lt_of_le ha hz))]
    exact h.2 a ha⟩

theorem Store.load_set_same (st : Store) (z : Nat) (v : Int) (hz : z < st.next) :
    (st.set z v).load (some z) = some v := by
  show (if z < st.next then some (Function.update st.cells z v z) else none) = some v
  rw [if_pos hz, Function.update_same]

theorem Store.load_set_ne (st : Store) (z : Nat) (v : Int) (p : Option Nat)
    (hp : p ≠ some z) : (st.set z v).load p = st.load p := by
  cases p with
  | none => rfl
  | some a =>
    have ha : a ≠ z := fun h => hp (by rw [h])
    show (if a < st.next then some (Function.update st.cells z v a) else none)
      = (if a < st.next then some (st.cells a) else none)
    rw [Function.update_noteq ha]

theorem Store.load_fresh (st : Store) : st.load (some st.next) = none := by
  rw [Store.load_some, if_neg (Nat.lt_irrefl _)]

theorem Store.lt_next_of_load {st : Store} {a : Nat} {v : Int}
    (h : st.load (some a) = some v) : a < st.next := by
  rw [Store.load_some] at h
  by_contra hn
  rw [if_neg hn] at h
  exact Option.noConfusion h

theorem bigMul_inv {st st1 : Store} {z : Nat} {x y : Option Nat}
    (h : bigMul st z x y = some st1) : ∃ v, st1 = st.set z v := by
  unfold bigMul at h
  split at h
  · exact ⟨_, (Option.some.inj h).symm⟩
  · exact Option.noConfusion h

theorem bigAdd_inv {st st1 : Store} {z : Nat} {x y : Option Nat}
    (h : bigAdd st z x y = some st1) : ∃ v, st1 = st.set z v := by
  unfold bigAdd at h
  split at h
  · exact ⟨_, (Option.some.inj h).symm⟩
  · exact Option.noConfusion h

theorem bigMul_eq (st : Store) (z : Nat) (x y : Option Nat) (vz vx vy : Int)
    (hz : st.load (some z) = some vz) (hx : st.load x = some vx) (hy : st.load y = some vy) :
    bigMul st z x y = some (st.set z (vx * vy)) := by
  unfold bigMul
  rw [hz, hx, hy]

theorem bigAdd_eq (st : Store) (z : Nat) (x y : Option Nat) (vz vx vy : Int)
    (hz : st.load (some z) = some vz) (hx : st.load x = some vx) (hy : st.load y = some vy) :
    bigAdd st z x y = some (st.set z (vx + vy)) := by
  unfold bigAdd
  rw [hz, hx, hy]

theorem Store.load_alloc_new (st : Store) : st.alloc.2.load (some st.alloc.1) = some 0 := by
  show (if st.next < st.next + 1 then some (Function.update st.cells st.next 0 st.next)
    else none) = some 0
  rw [if_pos (Nat.lt_succ_self _), Function.update_same]

end Mem

namespace Mem

theorem GetProofData_unfold (p : DFCommitmentOpeningProver) (ch : Option Nat) (st : Store) :
    p.GetProofData ch st =
      match bigMul st.alloc.2 st.alloc.1 ch p.committer.committedValue with
      | none => none
      | some stB =>
        match bigAdd stB st.alloc.1 (some st.alloc.1) p.r1 with
        | none => none
        | some stC =>
          match bigMul stC.alloc.2 stC.alloc.1 ch p.committer.r with
          | none => none
          | some stE =>
            match bigAdd stE stC.alloc.1 (some stC.alloc.1) p.r2 with
            | none => none
            | some stF => some ((some st.alloc.1, some stC.alloc.1), p, stF) := rfl

theorem GetProofData_frame (p p1 : DFCommitmentOpeningProver) (ch : Option Nat)
    (st st1 : Store) (out : Option Nat × Option Nat)
    (h : p.GetProofData ch st = some (out, p1, st1)) : p1 = p ∧ st.Ext st1 := by
  rw [GetProofData_unfold] at h
  split at h
  · exact Option.noConfusion h
  · rename_i stB hB
    split at h
    · exact Option.noConfusion h
    · rename_i stC hC
      split at h
      · exact Option.noConfusion h
      · rename_i stE hE
        split at h
        · exact Option.noConfusion h
        · rename_i stF hF
          simp only [Option.some.injEq, Prod.mk.injEq] at h
          obtain ⟨-, hp, hst⟩ := h
          obtain ⟨vB, rfl⟩ := bigMul_inv hB
          obtain ⟨vC, rfl⟩ := bigAdd_inv hC
          obtain ⟨vE, rfl⟩ := bigMul_inv hE
          obtain ⟨vF, rfl⟩ := bigAdd_inv hF
          refine ⟨hp.symm, ?_⟩
          rw [← hst]
          have e1 : st.Ext (st.alloc.2.set st.alloc.1 vB) :=
            Store.set_ext (Store.alloc_ext st) _ (le_refl _) _
          have e2 : st.Ext ((st.alloc.2.set st.alloc.1 vB).set st.alloc.1 vC) :=
            Store.set_ext e1 _ (le_refl _) _
          have e3 := Store.Ext.trans e2 (Store.alloc_ext _)
          have hn : st.next ≤ ((st.alloc.2.set st.alloc.1 vB).set st.alloc.1 vC).alloc.1 :=
            Nat.le_succ _
          exact Store.set_ext (Store.set_ext e3 _ hn _) _ hn _

theorem GetProofData_run (p : DFCommitmentOpeningProver) (ch : Option Nat) (st : Store)
    (c a r v1 v2 : Int)
    (hc : st.load ch = some c)
    (ha : st.load p.committer.GetDecommitMsg.1 = some a)
    (hr : st.load p.committer.GetDecommitMsg.2 = some r)
    (h1 : st.load p.r1 = some v1) (h2 : st.load p.r2 = some v2) :
    ∃ st1, p.GetProofData ch st = some ((some st.next, some (st.next + 1)), p, st1) ∧
      st1.load (some st.next) = some (c * a + v1) ∧
      st1.load (some (st.next + 1)) = some (c * r + v2) := by
  have eA := Store.alloc_ext st
  have hzA : st.alloc.2.load (some st.alloc.1) = some 0 := Store.load_alloc_new st
  have hB := bigMul_eq st.alloc.2 st.alloc.1 ch p.committer.committedValue 0 c a hzA
    (eA.load _ _ hc) (eA.load _ _ ha)
  have eB : st.Ext (st.alloc.2.set st.alloc.1 (c * a)) := Store.set_ext eA _ (le_refl _) _
  have hzB : (st.alloc.2.set st.alloc.1 (c * a)).load (some st.alloc.1) = some (c * a) :=
    Store.load_set_same _ _ _ (Nat.lt_succ_self _)
  have hC := bigAdd_eq _ st.alloc.1 (some st.alloc.1) p.r1 _ _ _ hzB hzB (eB.load _ _ h1)
  have eC : st.Ext ((st.alloc.2.set st.alloc.1 (c * a)).set st.alloc.1 (c * a + v1)) :=
    Store.set_ext eB _ (le_refl _) _
  have hzC : ((st.alloc.2.set st.alloc.1 (c * a)).set st.alloc.1 (c * a + v1)).load
      (some st.alloc.1) = some (c * a + v1) :=
    Store.load_set_same _ _ _ (Nat.lt_succ_self _)
  generalize hstC : (st.alloc.2.set st.alloc.1 (c * a)).set st.alloc.1 (c * a + v1) = stC
    at hC eC hzC
  have hnC : stC.next = st.next + 1 := by rw [← hstC]; rfl
  have eD := Store.alloc_ext stC
  have hzD : stC.alloc.2.load (some stC.alloc.1) = some 0 := Store.load_alloc_new stC
  have hE := bigMul_eq stC.alloc.2 stC.alloc.1 ch p.committer.r 0 c r hzD
    ((eC.trans eD).load _ _ hc) ((eC.trans eD).load _ _ hr)
  have hzE : (stC.alloc.2.set stC.alloc.1 (c * r)).load (some stC.alloc.1) = some (c * r) :=
    Store.load_set_same _ _ _ (Nat.lt_succ_self _)
  have hne : (some st.alloc.1 : Option Nat) ≠ some stC.alloc.1 := by
    intro h
    have h3 : st.next = stC.next := Option.some.inj h
    omega
  have h2E : (stC.alloc.2.set stC.alloc.1 (c * r)).load p.r2 = some v2 := by
    rw [Store.load_set_ne _ _ _ _ (by
      intro h
      rw [h] at h2
      have := Store.lt_next_of_load h2
      have h3 : stC.alloc.1 = stC.next := rfl
      omega)]
    exact (eC.trans eD).load _ _ h2
  have hF := bigAdd_eq _ stC.alloc.1 (some stC.alloc.1) p.r2 _ _ _ hzE hzE h2E
  refine ⟨(stC.alloc.2.set stC.alloc.1 (c * r)).set stC.alloc.1 (c * r + v2), ?_, ?_, ?_⟩
  · rw [GetProofData_unfold, hB]
    simp only
    rw [hC]
    simp only
    rw [hE]
    simp only
    rw [hF]
    have hs1 : st.alloc.1 = st.next := rfl
    have hs2 : stC.alloc.1 = st.next + 1 := hnC
    rw [hs1, hs2]
  · show ((stC.alloc.2.set stC.alloc.1 (c * r)).set stC.alloc.1 (c * r + v2)).load
      (some st.alloc.1) = some (c * a + v1)
    rw [Store.load_set_ne _ _ _ _ hne, Store.load_set_ne _ _ _ _ hne]
    exact eD.load _ _ hzC
  · have hs2 : stC.alloc.1 = st.next + 1 := hnC
    rw [← hs2]
    exact Store.load_set_same _ _ _ (Nat.lt_succ_self _)

end Mem

namespace Mem

theorem Store.fresh_ext (st : Store) (v : Int) : st.Ext (st.alloc.2.set st.alloc.1 v) :=
  Store.set_ext (Store.alloc_ext st) _ (le_refl _) _

theorem Store.fresh_load (st : Store) (v : Int) :
    (st.alloc.2.set st.alloc.1 v).load (some st.alloc.1) = some v :=
  Store.load_set_same _ _ _ (Nat.lt_succ_self _)

theorem Exp_eq (group : QRSpecialRSA) (st : Store) (base exponent : Option Nat) (b e : Int)
    (hb : st.load base = some b) (he : st.load exponent = some e) :
    Exp group st base exponent
      = some (st.alloc.1, st.alloc.2.set st.alloc.1 (group.Exp b e)) := by
  unfold Exp
  rw [hb, he]

theorem Mul_eq (group : QRSpecialRSA) (st : Store) (x y : Option Nat) (vx vy : Int)
    (hx : st.load x = some vx) (hy : st.load y = some vy) :
    Mul group st x y = some (st.alloc.1, st.alloc.2.set st.alloc.1 (group.Mul vx vy)) := by
  unfold Mul
  rw [hx, hy]

theorem ComputeCommit_eq (receiver : DamgardFujisakiReceiver) (st : Store)
    (x y : Option Nat) (vx vy : Int)
    (hx : st.load x = some vx) (hy : st.load y = some vy) :
    receiver.ComputeCommit st x y
      = some (st.alloc.1, st.alloc.2.set st.alloc.1
          (computeCommit receiver.QRSpecialRSA receiver.G receiver.H vx vy)) := by
  unfold DamgardFujisakiReceiver.ComputeCommit
  rw [hx, hy]

theorem Exp_inv {group : QRSpecialRSA} {st st1 : Store} {base exponent : Option Nat}
    {z : Nat} (h : Exp group st base exponent = some (z, st1)) : st.Ext st1 := by
  unfold Exp at h
  split at h
  · simp only [Option.some.injEq, Prod.mk.injEq] at h
    rw [← h.2]
    exact Store.fresh_ext st _
  · exact Option.noConfusion h

theorem Mul_inv {group : QRSpecialRSA} {st st1 : Store} {x y : Option Nat}
    {z : Nat} (h : Mul group st x y = some (z, st1)) : st.Ext st1 := by
  unfold Mul at h
  split at h
  · simp only [Option.some.injEq, Prod.mk.injEq] at h
    rw [← h.2]
    exact Store.fresh_ext st _
  · exact Option.noConfusion h

theorem ComputeCommit_inv {receiver : DamgardFujisakiReceiver} {st st1 : Store}
    {x y : Option Nat} {z : Nat} (h : receiver.ComputeCommit st x y = some (z, st1)) :
    st.Ext st1 := by
  unfold DamgardFujisakiReceiver.ComputeCommit at h
  split at h
  · simp only [Option.some.injEq, Prod.mk.injEq] at h
    rw [← h.2]
    exact Store.fresh_ext st _
  · exact Option.noConfusion h

theorem Verify_frame (v v1 : DFCommitmentOpeningVerifier) (s1 s2 : Option Nat)
    (st st1 : Store) (b : Bool) (h : v.Verify s1 s2 st = some (b, v1, st1)) :
    v1 = v ∧ st.Ext st1 := by
  unfold DFCommitmentOpeningVerifier.Verify at h
  split at h
  · exact Option.noConfusion h
  · rename_i left stA hA
    split at h
    · exact Option.noConfusion h
    · rename_i left2 stB hB
      split at h
      · exact Option.noConfusion h
      · rename_i right stC hC
        split at h
        · simp only [Option.some.injEq, Prod.mk.injEq] at h
          obtain ⟨-, hv, hst⟩ := h
          rw [← hst]
          exact ⟨hv.symm, (Exp_inv hA).trans ((Mul_inv hB).trans (ComputeCommit_inv hC))⟩
        · exact Option.noConfusion h

theorem Verify_run (v : DFCommitmentOpeningVerifier) (s1 s2 : Option Nat) (st : Store)
    (vC c t x y : Int)
    (hC : st.load v.receiver.Commitment = some vC) (hc : st.load v.challenge = some c)
    (ht : st.load v.proofRandomData = some t)
    (hx : st.load s1 = some x) (hy : st.load s2 = some y) :
    ∃ st1, v.Verify s1 s2 st
      = some (decide (v.receiver.QRSpecialRSA.Mul t (v.receiver.QRSpecialRSA.Exp vC c)
          = computeCommit v.receiver.QRSpecialRSA v.receiver.G v.receiver.H x y), v, st1) := by
  have hA := Exp_eq v.receiver.QRSpecialRSA st _ _ vC c hC hc
  generalize hstA : st.alloc.2.set st.alloc.1 (v.receiver.QRSpecialRSA.Exp vC c) = stA at hA
  have eA : st.Ext stA := by rw [← hstA]; exact Store.fresh_ext st _
  have lA : stA.load (some st.alloc.1) = some (v.receiver.QRSpecialRSA.Exp vC c) := by
    rw [← hstA]; exact Store.fresh_load st _
  have hB := Mul_eq v.receiver.QRSpecialRSA stA v.proofRandomData (some st.alloc.1) t _
    (eA.load _ _ ht) lA
  generalize hstB : stA.alloc.2.set stA.alloc.1
    (v.receiver.QRSpecialRSA.Mul t (v.receiver.QRSpecialRSA.Exp vC c)) = stB at hB
  have eB : stA.Ext stB := by rw [← hstB]; exact Store.fresh_ext stA _
  have lB : stB.load (some stA.alloc.1)
      = some (v.receiver.QRSpecialRSA.Mul t (v.receiver.QRSpecialRSA.Exp vC c)) := by
    rw [← hstB]; exact Store.fresh_load stA _
  have hD := ComputeCommit_eq v.receiver stB s1 s2 x y ((eA.trans eB).load _ _ hx)
    ((eA.trans eB).load _ _ hy)
  generalize hstC : stB.alloc.2.set stB.alloc.1
    (computeCommit v.receiver.QRSpecialRSA v.receiver.G v.receiver.H x y) = stC at hD
  have eC : stB.Ext stC := by rw [← hstC]; exact Store.fresh_ext stB _
  have lC : stC.load (some stB.alloc.1)
      = some (computeCommit v.receiver.QRSpecialRSA v.receiver.G v.receiver.H x y) := by
    rw [← hstC]; exact Store.fresh_load stB _
  refine ⟨stC, ?_⟩
  unfold DFCommitmentOpeningVerifier.Verify
  rw [hA]
  simp only
  rw [hB]
  simp only
  rw [hD]
  simp only
  rw [eC.load _ _ lB, lC]

end Mem

/-- C14. `GetProofData` and `Verify` only read the session state. On a store where the
pointers they use can be read, `GetProofData` returns, leaves the fields of the prover and
the cells of `r1` and `r2` as they were, returns what `GetProofData` on the stored values
gives, and a second call with another challenge answers from the same `r1`, `r2`; `Verify`
returns, leaves the fields of the verifier and the cells of `t` and of the challenge as they
were, returns what the check on the stored values gives, and returns the same when it is
repeated. In every state, a call that returns has changed no field and no cell allocated
before it. -/
theorem getProofData_verify_read_only
    (p : Mem.DFCommitmentOpeningProver) (v : Mem.DFCommitmentOpeningVerifier)
    (st : Mem.Store) (ch ch' s1 s2 : Option Nat) (c c' a r v1 v2 vC cv t x y : Int)
    (hch : st.load ch = some c) (hch' : st.load ch' = some c')
    (ha : st.load p.committer.GetDecommitMsg.1 = some a)
    (hr : st.load p.committer.GetDecommitMsg.2 = some r)
    (h1 : st.load p.r1 = some v1) (h2 : st.load p.r2 = some v2)
    (hC : st.load v.receiver.Commitment = some vC) (hcv : st.load v.challenge = some cv)
    (ht : st.load v.proofRandomData = some t)
    (hx : st.load s1 = some x) (hy : st.load s2 = some y) :
    (∃ out p1 st1, p.GetProofData ch st = some (out, p1, st1) ∧ p1 = p ∧
      st1.load p1.r1 = some v1 ∧ st1.load p1.r2 = some v2 ∧
      st1.load out.1 = some (v1 + c * a) ∧ st1.load out.2 = some (v2 + c * r) ∧
      (∀ cm : DamgardFujisakiCommitter, cm.GetDecommitMsg = (a, r) →
        DFCommitmentOpeningProver.GetProofData
          { committer := cm, challengeSpaceSize := p.challengeSpaceSize,
            r1 := some v1, r2 := some v2 } c = some (v1 + c * a, v2 + c * r)) ∧
      ∃ out' p2 st2, p1.GetProofData ch' st1 = some (out', p2, st2) ∧ p2 = p ∧
        st2.load p2.r1 = some v1 ∧ st2.load p2.r2 = some v2 ∧
        st2.load out'.1 = some (v1 + c' * a) ∧ st2.load out'.2 = some (v2 + c' * r)) ∧
    (∃ b w st1, v.Verify s1 s2 st = some (b, w, st1) ∧ w = v ∧
      st1.load w.proofRandomData = some t ∧ st1.load w.challenge = some cv ∧
      DFCommitmentOpeningVerifier.Verify
        { receiver := { QRSpecialRSA := v.receiver.QRSpecialRSA, G := v.receiver.G,
                        H := v.receiver.H, Commitment := vC },
          challengeSpaceSize := v.challengeSpaceSize, challenge := some cv,
          proofRandomData := some t } x y = some b ∧
      ∃ w2 st2, w.Verify s1 s2 st1 = some (b, w2, st2) ∧ w2 = v ∧
        st2.load w2.proofRandomData = some t ∧ st2.load w2.challenge = some cv) ∧
    (∀ (p0 p1 : Mem.DFCommitmentOpeningProver) (ch0 : Option Nat) (st0 st1 : Mem.Store)
        (out : Option Nat × Option Nat),
      p0.GetProofData ch0 st0 = some (out, p1, st1) → p1 = p0 ∧ st0.Ext st1) ∧
    (∀ (v0 w : Mem.DFCommitmentOpeningVerifier) (q1 q2 : Option Nat) (st0 st1 : Mem.Store)
        (b : Bool),
      v0.Verify q1 q2 st0 = some (b, w, st1) → w = v0 ∧ st0.Ext st1) := by
  refine ⟨?_, ?_, fun p0 p1 ch0 st0 st1 out h => Mem.GetProofData_frame p0 p1 ch0 st0 st1 out h,
    fun v0 w q1 q2 st0 st1 b h => Mem.Verify_frame v0 w q1 q2 st0 st1 b h⟩
  · obtain ⟨st1, hrun, hs1, hs2⟩ := Mem.GetProofData_run p ch st c a r v1 v2 hch ha hr h1 h2
    have e1 := (Mem.GetProofData_frame p p ch st st1 _ hrun).2
    obtain ⟨st2, hrun2, ht1, ht2⟩ := Mem.GetProofData_run p ch' st1 c' a r v1 v2
      (e1.load _ _ hch') (e1.load _ _ ha) (e1.load _ _ hr) (e1.load _ _ h1) (e1.load _ _ h2)
    have e2 := (Mem.GetProofData_frame p p ch' st1 st2 _ hrun2).2
    refine ⟨_, p, st1, hrun, rfl, e1.load _ _ h1, e1.load _ _ h2, ?_, ?_, ?_,
      _, p, st2, hrun2, rfl, (e1.trans e2).load _ _ h1, (e1.trans e2).load _ _ h2, ?_, ?_⟩
    · rw [Int.add_comm]; exact hs1
    · rw [Int.add_comm]; exact hs2
    · intro cm hcm
      simp only [DFCommitmentOpeningProver.GetProofData, hcm, Option.some.injEq,
        Prod.mk.injEq]
      exact ⟨Int.add_comm _ _, Int.add_comm _ _⟩
    · rw [Int.add_comm]; exact ht1
    · rw [Int.add_comm]; exact ht2
  · obtain ⟨st1, hrun⟩ := Mem.Verify_run v s1 s2 st vC cv t x y hC hcv ht hx hy
    have e1 := (Mem.Verify_frame v v s1 s2 st st1 _ hrun).2
    obtain ⟨st2, hrun2⟩ := Mem.Verify_run v s1 s2 st1 vC cv t x y (e1.load _ _ hC)
      (e1.load _ _ hcv) (e1.load _ _ ht) (e1.load _ _ hx) (e1.load _ _ hy)
    have e2 := (Mem.Verify_frame v v s1 s2 st1 st2 _ hrun2).2
    exact ⟨_, v, st1, hrun, rfl, e1.load _ _ ht, e1.load _ _ hcv, rfl,
      v, st2, hrun2, rfl, (e1.trans e2).load _ _ ht, (e1.trans e2).load _ _ hcv⟩

/-- On `memStore` the prover answers the challenge `2` with `(16, 25)` and still holds
`r1 = 6`, `r2 = 11`; the verifier accepts `(16, 25)` and still holds `t = 33` and the
challenge `2`. -/
theorem getProofData_verify_read_only_witness :
    (Mem.memProver.GetProofData (some 4) Mem.memStore).map
        (fun z => (z.2.2.load z.1.1, z.2.2.load z.1.2, z.2.2.load (some 2), z.2.2.load (some 3)))
      = some (some 16, some 25, some 6, some 11) ∧
    ∃ b w st1, Mem.memVerifier.Verify (some 8) (some 9) Mem.memStore = some (b, w, st1) ∧
      w = Mem.memVerifier ∧ st1.load w.proofRandomData = some 33 ∧
      st1.load w.challenge = some 2 ∧ b = true := by
  obtain ⟨b, w, st1, hrun, hw, ht, hc, hb, -⟩ :=
    (getProofData_verify_read_only Mem.memProver Mem.memVerifier Mem.memStore
      (some 4) (some 5) (some 8) (some 9) 2 3 5 7 6 11 19 2 33 16 25
      rfl rfl rfl rfl rfl rfl rfl rfl rfl rfl rfl).2.1
  refine ⟨by decide, b, w, st1, hrun, hw, ht, hc, ?_⟩
  have hval : DFCommitmentOpeningVerifier.Verify
      { receiver := { QRSpecialRSA := Mem.memVerifier.receiver.QRSpecialRSA,
                      G := Mem.memVerifier.receiver.G, H := Mem.memVerifier.receiver.H,
                      Commitment := 19 },
        challengeSpaceSize := Mem.memVerifier.challengeSpaceSize, challenge := some 2,
        proofRandomData := some 33 } 16 25 = some true := by decide
  rw [hval] at hb
  exact (Option.some.inj hb).symm

theorem BitLen_nonneg (x : Int) : 0 ≤ BitLen x := Int.natCast_nonneg _

theorem GetProofRandomData_none_of_nonpos (p : DFCommitmentOpeningProver)
    (src : RandomSource) (h : p.r1Bound ≤ 0) : p.GetProofRandomData src = none := by
  unfold DFCommitmentOpeningProver.GetProofRandomData GetRandomInt
  rw [if_neg (by omega)]

/-- C15. The sampling bounds are valid for the randomness source: for every `N` (its bit
length `nLen` is `≥ 0`), `k ≥ 0`, `B ≥ 0` and `T > 0`, the two bounds that
`GetProofRandomData` passes to `GetRandomInt` are strictly positive, as are
`T * 2^(nLen + k)` and `2^(B + 2 * nLen + k)`, which they equal when the sums stay below
`2^63`, and the call returns; the bound `2^k` that `GetChallenge` passes is strictly
positive and that call returns. When `T ≤ 0` the bound for `r1` is `≤ 0` and
`GetProofRandomData` has no result. -/
theorem sampling_bounds_positive (p : DFCommitmentOpeningProver)
    (v : DFCommitmentOpeningVerifier) (src : RandomSource)
    (hk : 0 ≤ p.challengeSpaceSize) (hB : 0 ≤ p.committer.B)
    (hvk : 0 ≤ v.challengeSpaceSize) :
    0 ≤ BitLen p.committer.QRSpecialRSA.N ∧
    (0 < p.committer.T →
      0 < p.r1Bound ∧ 0 < p.r2Bound ∧
      0 < p.committer.T
        * 2 ^ (BitLen p.committer.QRSpecialRSA.N + p.challengeSpaceSize).toNat ∧
      (0 : Int) < 2 ^ (p.committer.B + 2 * BitLen p.committer.QRSpecialRSA.N
        + p.challengeSpaceSize).toNat ∧
      ∃ t p1 src1, p.GetProofRandomData src = some (t, p1, src1)) ∧
    (BitLen p.committer.QRSpecialRSA.N + p.challengeSpaceSize < 2 ^ 63 →
      p.r1Bound = p.committer.T
        * 2 ^ (BitLen p.committer.QRSpecialRSA.N + p.challengeSpaceSize).toNat) ∧
    (p.committer.B + 2 * BitLen p.committer.QRSpecialRSA.N + p.challengeSpaceSize < 2 ^ 63 →
      p.r2Bound = 2 ^ (p.committer.B + 2 * BitLen p.committer.QRSpecialRSA.N
        + p.challengeSpaceSize).toNat) ∧
    (bigExp 2 v.challengeSpaceSize = 2 ^ v.challengeSpaceSize.toNat ∧
      (v.challengeSpaceSize.toNat : Int) = v.challengeSpaceSize ∧
      (0 : Int) < 2 ^ v.challengeSpaceSize.toNat ∧
      ∃ c v1 src1, v.GetChallenge src = some (c, v1, src1)) ∧
    (p.committer.T ≤ 0 → p.r1Bound ≤ 0 ∧ p.GetProofRandomData src = none) := by
  have hn := BitLen_nonneg p.committer.QRSpecialRSA.N
  have hch : ∃ c v1 src1, v.GetChallenge src = some (c, v1, src1) := by
    refine ⟨src.sample src.calls (bigExp 2 v.challengeSpaceSize),
      { v with challenge := some (src.sample src.calls (bigExp 2 v.challengeSpaceSize)) },
      { src with calls := src.calls + 1 }, ?_⟩
    simp only [DFCommitmentOpeningVerifier.GetChallenge]
    rw [GetRandomInt_pos _ _ (bigExp_two_pos _)]
  refine ⟨hn, fun hT => ?_, fun h => r1Bound_eq p (by omega) h,
    fun h => r2Bound_eq p (by omega) h,
    ⟨bigExp_eq _ _, Int.toNat_of_nonneg hvk, by positivity, hch⟩, fun hT => ?_⟩
  · exact ⟨r1Bound_pos p hT, r2Bound_pos p, by positivity, by positivity,
      _, _, _, GetProofRandomData_eq p src (r1Bound_pos p hT)⟩
  · have hb : p.r1Bound ≤ 0 :=
      Int.mul_nonpos_of_nonneg_of_nonpos (bigExp_two_pos _).le hT
    exact ⟨hb, GetProofRandomData_none_of_nonpos p src hb⟩

/-- For `exProver` (`T = 4`) both bounds are positive and the call returns; for
`zeroTProver` (`T = 0`) the first bound is `0` and the call has no result. -/
theorem sampling_bounds_positive_witness :
    (0 < exProver.r1Bound ∧ 0 < exProver.r2Bound ∧
      0 < exProver.committer.T
        * 2 ^ (BitLen exProver.committer.QRSpecialRSA.N + exProver.challengeSpaceSize).toNat ∧
      (0 : Int) < 2 ^ (exProver.committer.B + 2 * BitLen exProver.committer.QRSpecialRSA.N
        + exProver.challengeSpaceSize).toNat ∧
      ∃ t p1 src1, exProver.GetProofRandomData exSource = some (t, p1, src1)) ∧
    (zeroTProver.r1Bound ≤ 0 ∧ zeroTProver.GetProofRandomData exSource = none) :=
  ⟨(sampling_bounds_positive exProver exVerifier exSource (by decide) (by decide)
      (by decide)).2.1 (by decide),
    (sampling_bounds_positive zeroTProver exVerifier exSource (by decide) (by decide)
      (by decide)).2.2.2.2.2 (by decide)⟩

/-- C16. Honest responses are bounded and non-negative: for an opening with `a ≥ 0` and
`r ≥ 0`, `r1` in `[0, T * 2^(nLen + k))`, `r2` in `[0, 2^(B + 2 * nLen + k))` and a challenge
in `[0, 2^k)`, `GetProofData` returns `(s1, s2)` with `0 ≤ r1 ≤ s1 < T * 2^(nLen + k) + 2^k * a`
and `0 ≤ r2 ≤ s2 < 2^(B + 2 * nLen + k) + 2^k * r`; for `a = 0` (`r = 0`) the bound of `r1`
(`r2`) alone bounds `s1` (`s2`). The powers are taken in the rationals, so that every
integer exponent is covered. -/
theorem getProofData_bounded (committer : DamgardFujisakiCommitter) (k r1 r2 c : Int)
    (ha : 0 ≤ committer.GetDecommitMsg.1) (hr : 0 ≤ committer.GetDecommitMsg.2)
    (h1 : 0 ≤ r1)
    (h1' : (r1 : ℚ) < (committer.T : ℚ) * 2 ^ (BitLen committer.QRSpecialRSA.N + k))
    (h2 : 0 ≤ r2)
    (h2' : (r2 : ℚ) < 2 ^ (committer.B + 2 * BitLen committer.QRSpecialRSA.N + k))
    (hc : 0 ≤ c) (hc' : (c : ℚ) < 2 ^ k) :
    ∃ s1 s2,
      DFCommitmentOpeningProver.GetProofData
        { committer := committer, challengeSpaceSize := k, r1 := some r1, r2 := some r2 } c
        = some (s1, s2) ∧
      0 ≤ s1 ∧ 0 ≤ s2 ∧
      r1 ≤ s1 ∧
      (s1 : ℚ) < (committer.T : ℚ) * 2 ^ (BitLen committer.QRSpecialRSA.N + k)
        + 2 ^ k * (committer.GetDecommitMsg.1 : ℚ) ∧
      r2 ≤ s2 ∧
      (s2 : ℚ) < 2 ^ (committer.B + 2 * BitLen committer.QRSpecialRSA.N + k)
        + 2 ^ k * (committer.GetDecommitMsg.2 : ℚ) ∧
      (committer.GetDecommitMsg.1 = 0 →
        (s1 : ℚ) < (committer.T : ℚ) * 2 ^ (BitLen committer.QRSpecialRSA.N + k)) ∧
      (committer.GetDecommitMsg.2 = 0 →
        (s2 : ℚ) < 2 ^ (committer.B + 2 * BitLen committer.QRSpecialRSA.N + k)) := by
  simp only [DamgardFujisakiCommitter.GetDecommitMsg] at ha hr ⊢
  refine ⟨c * committer.committedValue + r1, c * committer.r + r2, rfl, ?_, ?_, ?_, ?_, ?_, ?_,
    ?_, ?_⟩
  · nlinarith [mul_nonneg hc ha]
  · nlinarith [mul_nonneg hc hr]
  · nlinarith [mul_nonneg hc ha]
  · have hca : (c : ℚ) * (committer.committedValue : ℚ)
        ≤ 2 ^ k * (committer.committedValue : ℚ) :=
      mul_le_mul_of_nonneg_right hc'.le (by exact_mod_cast ha)
    push_cast
    linarith
  · nlinarith [mul_nonneg hc hr]
  · have hcr : (c : ℚ) * (committer.r : ℚ) ≤ 2 ^ k * (committer.r : ℚ) :=
      mul_le_mul_of_nonneg_right hc'.le (by exact_mod_cast hr)
    push_cast
    linarith
  · intro h0
    rw [h0]
    push_cast
    simpa using h1'
  · intro h0
    rw [h0]
    push_cast
    simpa using h2'

/-- For the opening `(5, 7)`, `r1 = 6 < 4 * 2^8`, `r2 = 11 < 2^15` and the challenge
`2 < 2^2`, the response is `(16, 25)` with `6 ≤ 16 < 4 * 2^8 + 2^2 * 5` and
`11 ≤ 25 < 2^15 + 2^2 * 7`. -/
theorem getProofData_bounded_witness :
    exProver1.GetProofData 2 = some (16, 25) ∧
    ∃ s1 s2,
      DFCommitmentOpeningProver.GetProofData
        { committer := exCommitter, challengeSpaceSize := 2, r1 := some 6, r2 := some 11 } 2
        = some (s1, s2) ∧
      0 ≤ s1 ∧ 0 ≤ s2 ∧ 6 ≤ s1 ∧
      (s1 : ℚ) < (exCommitter.T : ℚ) * 2 ^ (BitLen exCommitter.QRSpecialRSA.N + 2)
        + 2 ^ (2 : Int) * (exCommitter.GetDecommitMsg.1 : ℚ) ∧
      11 ≤ s2 ∧
      (s2 : ℚ) < 2 ^ (exCommitter.B + 2 * BitLen exCommitter.QRSpecialRSA.N + 2)
        + 2 ^ (2 : Int) * (exCommitter.GetDecommitMsg.2 : ℚ) := by
  have hn1 : BitLen exCommitter.QRSpecialRSA.N + 2 = 8 := by decide
  have hn2 : exCommitter.B + 2 * BitLen exCommitter.QRSpecialRSA.N + 2 = 15 := by decide
  have hT : exCommitter.T = 4 := rfl
  obtain ⟨s1, s2, hs, h01, h02, hl1, hu1, hl2, hu2, -, -⟩ :=
    getProofData_bounded exCommitter 2 6 11 2 (by decide) (by decide) (by decide)
      (by rw [hn1, hT]; norm_num) (by decide) (by rw [hn2]; norm_num) (by decide)
      (by norm_num)
  exact ⟨by decide, s1, s2, hs, h01, h02, hl1, hu1, hl2, hu2⟩

end DFOpening
